import Mathlib

/-!
# Verification of the relational-redis-store specification

Shallow embedding of `src/lib/Store.ts` and `src/lib/util.ts` of the
`relational-redis-store` repository.  JavaScript objects are modelled as
insertion-ordered association lists (`List (String × _)`) with unique keys,
matching the semantics of object literals, spreads and `Object.keys` used by
the source.  The Redis backing store is a pure state (hashes and lists); the
`JSON.stringify`/`JSON.parse` codec at the hash boundary is modelled by the
injection `StoredVal.meta` together with the faithful serializer
`serializeMetadata` giving the wire form of every stored value.  A thrown
JavaScript exception (e.g. a `TypeError` from dereferencing `undefined`) is
modelled by an `Option` layer: `none` means the operation crashed instead of
returning a result value.  Store round trips and lock acquire/release calls
are recorded in an event trace.
-/

namespace RelationalStore

/-- JSON values; the payload type of collection records
(`val` in `CollectionItemMetadata`). -/
inductive Json where
  | null : Json
  | bool (b : Bool) : Json
  | num (n : Int) : Json
  | str (s : String) : Json
  | arr (xs : List Json) : Json
  | obj (fs : List (String × Json)) : Json
deriving Inhabited

/-- A JavaScript object: keys in insertion order, assumed unique. -/
abbrev JsObj := List (String × Json)

/-- Property read `o[k]`; `none` models `undefined`. -/
def jsGet (o : JsObj) (k : String) : Option Json :=
  match o.find? (fun e => e.1 = k) with
  | some e => some e.2
  | none => none

/-- Property write preserving insertion order: an existing key is updated in
place, a new key is appended (JS object update semantics). -/
def jsSet (o : JsObj) (k : String) (v : Json) : JsObj :=
  match o with
  | [] => [(k, v)]
  | e :: rest => if e.1 = k then (k, v) :: rest else e :: jsSet rest k v

/-- Spread `{...a, ...b}`. -/
def jsSpread (a b : JsObj) : JsObj := b.foldl (fun acc e => jsSet acc e.1 e.2) a

/-- Object destructuring that drops one key: `const {k: _, ...rest} = o`. -/
def jsDelKey (o : JsObj) (k : String) : JsObj := o.filter (fun e => ¬e.1 = k)

/-- `Object.keys`. -/
def jsKeys (o : JsObj) : List String := o.map Prod.fst

/-- String coercion of a value used as an object key or template literal
(`` `${v}` ``), as applied to the `string | number` typed index values. -/
def jsKeyStr : Json → String
  | .str s => s
  | .num n => toString n
  | .bool b => toString b
  | .null => "null"
  | .arr _ => ""
  | .obj _ => "[object Object]"

/-- JavaScript falsiness of a value (`!v`), for `string | number` values. -/
def jsFalsy : Json → Bool
  | .str s => s = ""
  | .num n => n = 0
  | .bool b => !b
  | .null => true
  | .arr _ => false
  | .obj _ => false

/-- Strict equality `===` as used to compare a parsed indexed value with the
fresh merged one: value equality on primitives; two distinct object/array
references are never strictly equal. -/
def jsStrictEq : Json → Json → Bool
  | .null, .null => true
  | .bool a, .bool b => a = b
  | .num a, .num b => a = b
  | .str a, .str b => a = b
  | _, _ => false

/-- JSON string escaping as performed by `JSON.stringify`. -/
def escapeChar (c : Char) : String :=
  if c = '"' then "\\\""
  else if c = '\\' then "\\\\"
  else if c = '\n' then "\\n"
  else if c = '\t' then "\\t"
  else if c = '\r' then "\\r"
  else String.singleton c

def escapeString (s : String) : String := String.join (s.data.map escapeChar)

def quoted (s : String) : String := "\"" ++ escapeString s ++ "\""

mutual

/-- `JSON.stringify` on a JSON value (no whitespace, insertion key order);
`serializeList` and `serializeFields` are the comma-joined element and
field renderings. -/
def Json.serialize : Json → String
  | .null => "null"
  | .bool b => if b then "true" else "false"
  | .num n => toString n
  | .str s => quoted s
  | .arr xs => "[" ++ serializeList xs ++ "]"
  | .obj fs => "\x7b" ++ serializeFields fs ++ "\x7d"

def serializeList : List Json → String
  | [] => ""
  | [x] => x.serialize
  | x :: y :: xs => x.serialize ++ "," ++ serializeList (y :: xs)

def serializeFields : List (String × Json) → String
  | [] => ""
  | [e] => quoted e.1 ++ ":" ++ e.2.serialize
  | e :: f :: es => quoted e.1 ++ ":" ++ e.2.serialize ++ "," ++ serializeFields (f :: es)

end

/-- Lexicographic order on character codes, as the default JS string
comparison used by the `json-stable-stringify` key sort. -/
def strCmpLe : List Char → List Char → Bool
  | [], _ => true
  | _ :: _, [] => false
  | a :: as, b :: bs =>
      if a.toNat < b.toNat then true
      else if b.toNat < a.toNat then false
      else strCmpLe as bs

def strLe (a b : String) : Bool := strCmpLe a.data b.data

/-- Key order used by the `json-stable-stringify` default comparator. -/
def keyLe (a b : String × Json) : Prop := strLe a.1 b.1 = true

instance : DecidableRel keyLe := fun a b => inferInstanceAs (Decidable (strLe a.1 b.1 = true))

mutual

/-- Recursively sort every object's fields by key (values first, then an
insertion sort on the keys); composing with `serialize` gives exactly the
output of `json-stable-stringify`. -/
def Json.canon : Json → Json
  | .null => .null
  | .bool b => .bool b
  | .num n => .num n
  | .str s => .str s
  | .arr xs => .arr (canonList xs)
  | .obj fs => .obj (List.insertionSort keyLe (canonFields fs))

def canonList : List Json → List Json
  | [] => []
  | x :: xs => x.canon :: canonList xs

def canonFields : List (String × Json) → List (String × Json)
  | [] => []
  | e :: es => (e.1, e.2.canon) :: canonFields es

end

/-- `jsonStableStringify`: canonically-key-sorted JSON serialization used for
queue items. -/
def jsonStableStringify (j : Json) : String := j.canon.serialize

/-! ## Record metadata (`util.ts`) -/

/-- `relationKind` tag of a foreign-key declaration. -/
inductive FKType where
  | oneToOne : FKType
  | oneToMany : FKType
deriving DecidableEq

/-- A foreign-key declaration `{type, collection}`. -/
structure FKDecl where
  type : FKType
  collection : String
deriving DecidableEq

/-- `CollectionItemMetadata`: the stored unit per id.  An empty `foreignKeys`
or `indexedIn` list models the absent optional property (the source includes
the property only when non-empty). -/
structure ItemMetadata where
  val : JsObj
  id : String
  foreignKeys : List (String × FKDecl) := []
  indexedIn : List (String × Json) := []

/-- `foreignKeys` as a JSON object, for serialization. -/
def fkToJson (fks : List (String × FKDecl)) : Json :=
  .obj (fks.map (fun e =>
    (e.1, .obj [("type", .str (match e.2.type with
                               | .oneToOne => "oneToOne"
                               | .oneToMany => "oneToMany")),
                ("collection", .str e.2.collection)])))

/-- A metadata record as the JSON value that `JSON.stringify` receives
(property insertion order of the object literal in `addItemToCollection`). -/
def metadataToJson (m : ItemMetadata) : Json :=
  .obj ([("val", .obj m.val), ("id", .str m.id)]
    ++ (if m.foreignKeys.isEmpty then [] else [("foreignKeys", fkToJson m.foreignKeys)])
    ++ (if m.indexedIn.isEmpty then [] else [("indexedIn", .obj m.indexedIn)]))

/-- The wire form of a stored record: `JSON.stringify` of its metadata. -/
def serializeMetadata (m : ItemMetadata) : String := (metadataToJson m).serialize

/-- A value held in a hash field: either a plain string (the `_index`
counter, secondary-index pointers) or a serialized record metadata.  The
`JSON.stringify`/`JSON.parse` codec is modelled as the `meta` injection;
`wireString` gives the exact string stored by the real system. -/
inductive StoredVal where
  | raw (s : String) : StoredVal
  | meta (m : ItemMetadata) : StoredVal

/-- The exact string the backing store holds for a modelled hash value. -/
def wireString : StoredVal → String
  | .raw s => s
  | .meta m => serializeMetadata m

/-- Redis state: hashes (key → field → value) and lists (key → items),
both as insertion-ordered association lists. -/
structure RedisState where
  hashes : String → List (String × StoredVal) := fun _ => []
  lists : String → List String := fun _ => []

def emptyState : RedisState := {}

/-- All fields of hash `k`, in insertion order (an absent key is the empty
list; Redis creates a hash on first write and drops it when empty, which is
observationally identical for every operation modelled here). -/
def hashFields (st : RedisState) (k : String) : List (String × StoredVal) :=
  st.hashes k

/-- `HGET k f`. -/
def hashGet (st : RedisState) (k f : String) : Option StoredVal :=
  match (hashFields st k).find? (fun e => e.1 = f) with
  | some e => some e.2
  | none => none

/-- Set a field inside a field list (update in place or append). -/
def fieldsSet (fs : List (String × StoredVal)) (f : String) (v : StoredVal) :
    List (String × StoredVal) :=
  match fs with
  | [] => [(f, v)]
  | e :: rest => if e.1 = f then (f, v) :: rest else e :: fieldsSet rest f v

/-- `HSET k f v`. -/
def hashSet (st : RedisState) (k f : String) (v : StoredVal) : RedisState :=
  { st with
    hashes := fun k2 => if k2 = k then fieldsSet (st.hashes k) f v else st.hashes k2 }

/-- `HDEL k f`. -/
def hashDel (st : RedisState) (k f : String) : RedisState :=
  { st with
    hashes := fun k2 => if k2 = k then (st.hashes k).filter (fun p => ¬p.1 = f) else st.hashes k2 }

/-- Decimal parsing of a counter string: the canonical-decimal case of JS
`Number(...)` (counters only ever hold plain decimal digit strings). -/
def decToNat? (s : String) : Option Nat :=
  let ds := s.data
  if ds.isEmpty then none
  else if ds.all (fun ch => 48 ≤ ch.toNat && ch.toNat ≤ 57) then
    some (ds.foldl (fun n ch => n * 10 + (ch.toNat - 48)) 0)
  else none

/-- Numeric reading of a stored counter string (decimal, as `HINCRBY` and
`Number(...)` read it on the canonical values produced by this code). -/
def decOf (v : Option StoredVal) : Nat :=
  match v with
  | some (.raw s) => (decToNat? s).getD 0
  | _ => 0

/-- `HINCRBY k f 1`: stores the decimal string of the incremented value and
returns it. -/
def hashIncr (st : RedisState) (k f : String) : RedisState × Nat :=
  let n := decOf (hashGet st k f) + 1
  (hashSet st k f (.raw (toString n)), n)

/-- `HLEN k`. -/
def hashLen (st : RedisState) (k : String) : Nat := (hashFields st k).length

/-- Items of list `k` (empty when absent). -/
def listItems (st : RedisState) (k : String) : List String :=
  st.lists k

/-- `RPUSH k s`. -/
def listPush (st : RedisState) (k s : String) : RedisState :=
  { st with
    lists := fun k2 => if k2 = k then st.lists k ++ [s] else st.lists k2 }

/-- `LREM k 0 s`: removes every occurrence of `s`, returning the count. -/
def listRem (st : RedisState) (k s : String) : RedisState × Nat :=
  let removed := (st.lists k).filter (fun x => x = s)
  ({ st with
     lists := fun k2 => if k2 = k then (st.lists k).filter (fun x => ¬x = s) else st.lists k2 },
   removed.length)

/-! ## util.ts helpers -/

/-- `toCollectionId` — NOTE: the source ignores the collection and returns the
bare id; hash fields are named by the record id alone. -/
def toCollectionId (_collection : String) (id : String) : String := id

def toQueueName (queue : String) : String := "queue:" ++ queue

def toIndexedCollectionName (collection : String) (byField : String) : String :=
  collection ++ ":by:" ++ byField

/-- `String.prototype.split` by a non-empty separator, on character lists
(structural recursion: the `Nat` counts separator characters left to skip). -/
def splitSkip (sep : List Char) : Nat → List Char → List (List Char)
  | 0, [] => [[]]
  | 0, c :: rest =>
      if sep.isPrefixOf (c :: rest) then
        [] :: splitSkip sep (sep.length - 1) rest
      else
        match splitSkip sep 0 rest with
        | [] => [[c]]
        | g :: gs => (c :: g) :: gs
  | _+1, [] => [[]]
  | n+1, _ :: rest => splitSkip sep n rest

/-- `indexedCollection.split(':by:')[1]` (`undefined` when absent → `none`). -/
def getByFieldNameFromIndexedCollection (indexedCollection : String) : Option String :=
  ((splitSkip ":by:".data 0 indexedCollection.data).map (fun cs => String.mk cs)).get? 1

/-! ## Event traces -/

/-- Observable backing-store events: one `trip` per round trip (a single
command or one atomically-executed `MULTI` batch), plus lock activity. -/
inductive Ev where
  | trip : Ev
  | acquire (l : String) : Ev
  | release (l : String) : Ev
deriving DecidableEq

def tripCount (tr : List Ev) : Nat := (tr.filter (fun e => e = .trip)).length

def isLockEv : Ev → Bool
  | .trip => false
  | .acquire _ => true
  | .release _ => true

/-- The subsequence of lock acquire/release events of a trace. -/
def lockEvents (tr : List Ev) : List Ev := tr.filter (fun e => isLockEv e)

/-- `StoreErrors` (the union type in `Store.ts`). -/
inductive StoreErr where
  | CollectionFieldInexistent
  | CollectionAdditionFailure
  | CollectionDeletionFailure
  | CollectionUpdateFailure
  | CollectionUpdateFailureMismatchingForeignKeys
  | CollectionOrFieldInexistent
  | QueueItemNotFound
  | GenericRedisFailure
deriving DecidableEq

/-- A thrown JavaScript exception is `none`; a value-returned result is
`some`. -/
abbrev JsRes (α : Type) := Option (Except StoreErr α)

/-! ## Relational resolution engine (`Store.ts`) -/

/-- `p[k]` on a `collection → id-set` accumulator (`{}` when absent). -/
def lookupIds (p : List (String × List String)) (k : String) : List String :=
  match p.find? (fun e => e.1 = k) with
  | some e => e.2
  | none => []

/-- In-place-or-append write on a `collection → id-set` accumulator. -/
def setIds (p : List (String × List String)) (k : String) (ids : List String) :
    List (String × List String) :=
  match p with
  | [] => [(k, ids)]
  | e :: rest => if e.1 = k then (k, ids) :: rest else e :: setIds rest k ids

/-- Ordered key union: the spread `{...a, ...b}` on id→null objects. -/
def idSetUnion (a b : List String) : List String :=
  b.foldl (fun acc x => if acc.contains x then acc else acc ++ [x]) a

/-- The foreign ids one declared foreign-key field contributes: a one-to-many
field the keys of its id→null map, a one-to-one field its single id
(`{ [val[k]]: null }`, the value coerced to a property key). -/
def contributedIds (val : JsObj) (k : String) (fkd : FKDecl) : List String :=
  match fkd.type with
  | .oneToMany =>
      match jsGet val k with
      | some (.obj o) => jsKeys o
      | _ => []
  | .oneToOne =>
      match jsGet val k with
      | some v => [jsKeyStr v]
      | none => ["undefined"]

/-- The per-item `valuesMap` reduce in `compactAllForeignKeys`.  NOTE the
faithful slip from the source: the accumulator is read at the *field* name
(`...p[k]`) but written at the *collection* name, so two fields of one item
that target the same collection overwrite each other's ids. -/
def itemValuesMap (m : ItemMetadata) : List (String × List String) :=
  m.foreignKeys.foldl
    (fun p e => setIds p e.2.collection (idSetUnion (lookupIds p e.1) (contributedIds m.val e.1 e.2)))
    []

/-- `deepmerge` on the two-level `collection → id → null` shape: outer keys
keep the target's order with new source keys appended, shared outer keys get
their inner key sets merged. -/
def deepmergeIds (a b : List (String × List String)) : List (String × List String) :=
  b.foldl (fun acc e => setIds acc e.1 (idSetUnion (lookupIds acc e.1) e.2)) a

/-- `compactAllForeignKeys`: `targetCollection → list of foreign ids`. -/
def compactAllForeignKeys (items : List ItemMetadata) : List (String × List String) :=
  items.foldl (fun prev m => deepmergeIds prev (itemValuesMap m)) []

/-- A resolved record (`CollectionItemMetadataReply`): shallow metadata plus
the `foreignItems` subtree.  An `Option RMeta` leaf that is `none` models the
`undefined` produced when reassembly looks up an id the batch never fetched. -/
inductive RMeta where
  | mk (val : JsObj) (id : String)
      (o2o : List (String × Option RMeta))
      (o2m : List (String × List (String × Option RMeta))) : RMeta

def RMeta.rid : RMeta → String
  | .mk _ i _ _ => i

/-- Lookup in the `collection → id → resolved` grouping. -/
def lookupGrouped (g : List (String × List (String × RMeta))) (c fid : String) :
    Option RMeta :=
  match g.find? (fun e => e.1 = c) with
  | some e =>
      match e.2.find? (fun p => p.1 = fid) with
      | some p => some p.2
      | none => none
  | none => none

/-- Insert into the `collection → id → resolved` grouping (js object
semantics at both levels). -/
def groupedSet (g : List (String × List (String × RMeta))) (c : String) (r : RMeta) :
    List (String × List (String × RMeta)) :=
  match g.find? (fun e => e.1 = c) with
  | some _ =>
      g.map (fun e =>
        if e.1 = c then
          (e.1,
            match e.2.find? (fun p => p.1 = r.rid) with
            | some _ => e.2.map (fun p => if p.1 = r.rid then (p.1, r) else p)
            | none => e.2 ++ [(r.rid, r)])
        else e)
  | none => g ++ [(c, [(r.rid, r)])]

/-- Attach `foreignItems` to one source record from the grouped resolved
targets (step 6 of the algorithm). -/
def reassemble (g : List (String × List (String × RMeta))) (m : ItemMetadata) : RMeta :=
  let acc := m.foreignKeys.foldl
    (fun (acc : List (String × Option RMeta) × List (String × List (String × Option RMeta))) e =>
      match e.2.type with
      | .oneToMany =>
          let fids := match jsGet m.val e.1 with
                      | some (.obj o) => jsKeys o
                      | _ => []
          (acc.1, acc.2 ++ [(e.1, fids.map (fun fid => (fid, lookupGrouped g e.2.collection fid)))])
      | .oneToOne =>
          let fid := match jsGet m.val e.1 with
                     | some v => jsKeyStr v
                     | none => "undefined"
          (acc.1 ++ [(e.1, lookupGrouped g e.2.collection fid)], acc.2))
    ([], [])
  .mk m.val m.id acc.1 acc.2

/-- Validation + parse of one recursion depth's batch replies: a missing id
(`null` reply) fails the depth with `CollectionFieldInexistent`; a reply that
is not a serialized record is outside the modelled codec (crash).  Parsing
happens eagerly while mapping, before errors are joined, so a crash
dominates. -/
def parseReplies (replies : List (String × List (Option StoredVal))) :
    JsRes (List (String × ItemMetadata)) :=
  if replies.any (fun e => e.2.any (fun r => match r with
                                             | some (.raw _) => true
                                             | _ => false)) then
    none
  else if replies.any (fun e => e.2.any (fun r => r.isNone)) then
    some (.error .CollectionFieldInexistent)
  else
    some (.ok (replies.flatMap (fun e =>
      e.2.filterMap (fun r => match r with
                              | some (.meta m) => some (e.1, m)
                              | _ => none))))

/-- `resolveForeignItems`.  The `fuel` bounds the recursion depth (the source
recurses without a cycle guard; exhausted fuel models non-termination as a
crash).  The returned `Nat` counts backing-store round trips: all per-depth
multi-field reads are queued into a single `MULTI` executed by one
`execMulti`, hence at most one trip per depth. -/
def resolveForeignItems (st : RedisState) : Nat → List ItemMetadata →
    JsRes (List RMeta) × Nat
  | 0, _ => (none, 0)
  | fuel + 1, items =>
    let gets := (compactAllForeignKeys items).filter (fun e => ¬e.2.isEmpty)
    -- Return early if no foreign keys or no foreign values: no round trip
    if gets.isEmpty then
      (some (.ok (items.map (fun m => .mk m.val m.id [] []))), 0)
    else
      -- one atomic batch holding one HMGET per foreign collection
      let replies := gets.map (fun e =>
        (e.1, e.2.map (fun fid => hashGet st e.1 (toCollectionId e.1 fid))))
      match parseReplies replies with
      | none => (none, 1)
      | some (.error er) => (some (.error er), 1)
      | some (.ok flat) =>
        match resolveForeignItems st fuel (flat.map Prod.snd) with
        | (none, n) => (none, 1 + n)
        | (some (.error er), n) => (some (.error er), 1 + n)
        | (some (.ok resolved), n) =>
          let grouped := (List.zip (flat.map Prod.fst) resolved).foldl
            (fun g cr => groupedSet g cr.1 cr.2) []
          (some (.ok (items.map (reassemble grouped))), 1 + n)

mutual

/-- `metadataReplyToCollectionItem`: flatten a resolved record to the
caller-visible shape (`{...val, ...oneToMany, ...oneToOne, id}`); a `none`
leaf crashes, as the source dereferences `undefined`. -/
def toItem : RMeta → Option JsObj
  | .mk val id o2o o2m =>
    match toO2M o2m, toO2O o2o with
    | some mf, some of => some (jsSet (jsSpread (jsSpread val mf) of) "id" (.str id))
    | _, _ => none

def toO2M : List (String × List (String × Option RMeta)) → Option JsObj
  | [] => some []
  | (fk, subs) :: rest =>
    match toInner subs, toO2M rest with
    | some inner, some restO => some ((fk, Json.obj inner) :: restO)
    | _, _ => none

def toInner : List (String × Option RMeta) → Option JsObj
  | [] => some []
  | (_, none) :: _ => none
  | (fid, some r) :: rest =>
    match toItem r, toInner rest with
    | some it, some restI => some ((fid, Json.obj it) :: restI)
    | _, _ => none

def toO2O : List (String × Option RMeta) → Option JsObj
  | [] => some []
  | (_, none) :: _ => none
  | (fk, some r) :: rest =>
    match toItem r, toO2O rest with
    | some it, some restO => some ((fk, Json.obj it) :: restO)
    | _, _ => none

end

/-! ## Collection operations -/

/-- `getShallowItemsInCollectionWithMetadata`: empty ids short-circuit with no
store access; otherwise one `HMGET` round trip; a `null` reply for any id
fails the whole call with `CollectionFieldInexistent` (no partial result). -/
def getShallowItems (st : RedisState) (c : String) (ids : List String) :
    JsRes (List ItemMetadata) × List Ev :=
  if ids.isEmpty then (some (.ok []), [])
  else
    let replies := ids.map (fun id => hashGet st c (toCollectionId c id))
    let res : JsRes (List ItemMetadata) :=
      if replies.any (fun r => match r with
                               | some (.raw _) => true
                               | _ => false) then none
      else if replies.any (fun r => r.isNone) then some (.error .CollectionFieldInexistent)
      else some (.ok (replies.filterMap (fun r => match r with
                                                  | some (.meta m) => some m
                                                  | _ => none)))
    (res, [.trip])

/-- `getItemsInCollectionWithMetadata`: shallow read then full resolution. -/
def getItemsWithMetadata (st : RedisState) (fuel : Nat) (c : String) (ids : List String) :
    JsRes (List RMeta) × List Ev :=
  match getShallowItems st c ids with
  | (some (.ok metas), tr) =>
      let rn := resolveForeignItems st fuel metas
      (rn.1, tr ++ List.replicate rn.2 .trip)
  | (some (.error er), tr) => (some (.error er), tr)
  | (none, tr) => (none, tr)

/-- Map every resolved record to caller shape; any crash propagates. -/
def mapToItems : List RMeta → Option (List JsObj)
  | [] => some []
  | r :: rest =>
    match toItem r, mapToItems rest with
    | some it, some restI => some (it :: restI)
    | _, _ => none

/-- `getItemsInCollection`: resolved metadata mapped to caller shape. -/
def getItemsInCollection (st : RedisState) (fuel : Nat) (c : String) (ids : List String) :
    JsRes (List JsObj) × List Ev :=
  match getItemsWithMetadata st fuel c ids with
  | (some (.ok rs), tr) =>
      match mapToItems rs with
      | some items => (some (.ok items), tr)
      | none => (none, tr)
  | (some (.error er), tr) => (some (.error er), tr)
  | (none, tr) => (none, tr)

/-- `getItemInCollection`: the one-id instance of Get-many. -/
def getItemInCollection (st : RedisState) (fuel : Nat) (c : String) (id : String) :
    JsRes JsObj × List Ev :=
  match getItemsInCollection st fuel c [id] with
  | (some (.ok (it :: _)), tr) => (some (.ok it), tr)
  | (some (.ok []), tr) => (none, tr)
  | (some (.error er), tr) => (some (.error er), tr)
  | (none, tr) => (none, tr)

/-- `getItemInCollectionBy`: index lookup (`HGET` on `<c>:by:<field>`), then
delegation to `getItemInCollection`. -/
def getItemInCollectionBy (st : RedisState) (fuel : Nat) (c byKey : String) (keyVal : Json) :
    JsRes JsObj × List Ev :=
  match hashGet st (toIndexedCollectionName c byKey) (jsKeyStr keyVal) with
  | none => (some (.error .CollectionFieldInexistent), [.trip])
  | some (.raw refId) =>
      let r := getItemInCollection st fuel c refId
      (r.1, .trip :: r.2)
  | some (.meta _) => (none, [.trip])

/-- `deep-equal` on the declared-vs-stored `foreignKeys` objects: structural,
key-order-insensitive map equality (`{}` for an absent property). -/
def fkMapEq (a b : List (String × FKDecl)) : Bool :=
  a.all (fun e => b.find? (fun p => p.1 = e.1) = some (e.1, e.2)) &&
  b.all (fun e => a.find? (fun p => p.1 = e.1) = some (e.1, e.2))

/-- Reply shape of `addItemToCollection`. -/
structure AddReply where
  index : Nat
  length : Nat
  item : JsObj

/-- `addItemToCollection`.  `batchFails` is the oracle for a wholly-failing
`execMulti` (atomic: no write survives).  Returns the new state, the result
(`none` = crash) and the event trace. -/
def addItem (st : RedisState) (fuel : Nat) (c : String) (val : JsObj)
    (idOpt : Option String) (indexBy : List String)
    (fks : List (String × FKDecl)) (batchFails : Bool) :
    RedisState × JsRes AddReply × List Ev :=
  let lock := "locked:" ++ c
  -- resolve the id: caller-supplied, or stored counter value + 1 (HGET trip)
  let idPart : String × List Ev :=
    match idOpt with
    | some i => (i, [])
    | none =>
        match hashGet st c "_index" with
        | some v => (toString (decOf (some v) + 1), [.trip])
        | none => ("1", [.trip])
  let resolvedId := idPart.1
  let field := toCollectionId c resolvedId
  let item : ItemMetadata :=
    { val := val
      id := resolvedId
      foreignKeys := fks
      indexedIn :=
        if indexBy.isEmpty then []
        else indexBy.foldl
          (fun acc f => jsSet acc (toIndexedCollectionName c f) ((jsGet val f).getD .null))
          [] }
  if batchFails then
    (st, some (.error .CollectionFieldInexistent),
      [.acquire lock] ++ idPart.2 ++ [.trip, .release lock])
  else
    -- one atomic batch: HSET record, HINCRBY _index, HLEN, HGET record,
    -- plus one index HSET per indexBy field
    let st1 := hashSet st c field (.meta item)
    let incr := hashIncr st1 c "_index"
    let st2 := incr.1
    let newIndex := incr.2
    let len := hashLen st2 c
    let st3 := indexBy.foldl
      (fun s f => hashSet s (toIndexedCollectionName c f)
        (jsKeyStr ((jsGet val f).getD .null)) (.raw resolvedId)) st2
    -- re-resolve the just-written item via Get (to hydrate foreign keys)
    let refetch := getItemInCollection st3 fuel c resolvedId
    let res : JsRes AddReply :=
      match refetch.1 with
      | some (.ok it) => some (.ok { index := newIndex, length := len - 1, item := it })
      | some (.error er) => some (.error er)
      | none => none
    (st3, res, [.acquire lock] ++ idPart.2 ++ [.trip] ++ refetch.2 ++ [.release lock])

/-- One entry of `getIndexedInValueRecords`: an indexed field whose source
value changed in this update. -/
structure ChangedIdx where
  indexedInCollection : String
  prevValue : Json
  nextValue : Option Json

/-- `getIndexedInValueRecords`: for each `indexedIn` entry of the stored
record, recover the field name from the index-collection name and compare the
stored indexed value with the merged next value under strict equality. -/
def getIndexedInValueRecords (prev : ItemMetadata) (next : JsObj) : List ChangedIdx :=
  prev.indexedIn.foldl
    (fun acc e =>
      let byField := getByFieldNameFromIndexedCollection e.1
      let nextV := match byField with
                   | some f => jsGet next f
                   | none => none
      let same := match nextV with
                  | some v => jsStrictEq e.2 v
                  | none => false
      if same then acc
      else acc ++ [{ indexedInCollection := e.1, prevValue := e.2, nextValue := nextV }])
    []

/-- Key string written/deleted in an index hash for a (possibly `undefined`)
value. -/
def idxFieldStr : Option Json → String
  | some v => jsKeyStr v
  | none => "undefined"

/-- `updateItemInCollection`.  `getter` is the caller-supplied
`propsOrFunction` (a plain object is the constant function); `.error` models
a rejected async result.  Returns new state, result, trace. -/
def updateItem (st : RedisState) (fuel : Nat) (c id : String)
    (getter : JsObj → Except Unit JsObj)
    (declaredFks : List (String × FKDecl)) (batchFails : Bool) :
    RedisState × JsRes JsObj × List Ev :=
  let lock := "locked:" ++ c ++ ":" ++ id
  match getShallowItems st c [id] with
  | (some (.ok (prev :: _)), tr0) =>
    if ¬fkMapEq declaredFks prev.foreignKeys then
      (st, some (.error .CollectionUpdateFailureMismatchingForeignKeys),
        [.acquire lock] ++ tr0 ++ [.release lock])
    else
      match getter prev.val with
      | .error _ =>
          (st, some (.error .CollectionUpdateFailure),
            [.acquire lock] ++ tr0 ++ [.release lock])
      | .ok itemModel =>
          let itemModelWithoutId := jsDelKey itemModel "id"
          let nextItem := jsSpread prev.val itemModelWithoutId
          let changed := getIndexedInValueRecords prev nextItem
          let nextMeta : ItemMetadata :=
            { val := nextItem
              id := prev.id
              foreignKeys := prev.foreignKeys
              indexedIn :=
                if prev.indexedIn.isEmpty then []
                else changed.foldl
                  (fun acc r => jsSet acc r.indexedInCollection (r.nextValue.getD .null))
                  prev.indexedIn }
          if batchFails then
            (st, some (.error .CollectionUpdateFailure),
              [.acquire lock] ++ tr0 ++ [.trip, .release lock])
          else
            -- one atomic batch: per changed index, HSET new pointer + HDEL old,
            -- then HSET of the updated record
            let stIdx := changed.foldl
              (fun s r =>
                hashDel (hashSet s r.indexedInCollection (idxFieldStr r.nextValue) (.raw id))
                  r.indexedInCollection (jsKeyStr r.prevValue))
              st
            let st' := hashSet stIdx c (toCollectionId c id) (.meta nextMeta)
            let refetch := getItemInCollection st' fuel c id
            (st', refetch.1,
              [.acquire lock] ++ tr0 ++ [.trip] ++ refetch.2 ++ [.release lock])
  | (some (.ok []), tr0) => (st, none, [.acquire lock] ++ tr0 ++ [.release lock])
  | (some (.error er), tr0) =>
      (st, some (.error er), [.acquire lock] ++ tr0 ++ [.release lock])
  | (none, tr0) => (st, none, [.acquire lock] ++ tr0 ++ [.release lock])

/-- Reply shape of `removeItemInCollection` (`item` is `undefined`). -/
structure RemoveReply where
  index : Nat
  length : Nat

/-- `removeItemInCollection`: shallow read first (absent id →
`CollectionFieldInexistent`), one batch deleting the record and reading
counter and size, then a second best-effort batch deleting the index entries
of every truthy `indexedIn` value. -/
def removeItem (st : RedisState) (c id : String) (batchFails : Bool) :
    RedisState × JsRes RemoveReply × List Ev :=
  match getShallowItems st c [id] with
  | (some (.ok (prev :: _)), tr0) =>
    if batchFails then (st, some (.error .CollectionDeletionFailure), tr0 ++ [.trip])
    else
      let st1 := hashDel st c (toCollectionId c id)
      let index := decOf (hashGet st1 c "_index")
      let len := hashLen st1 c
      let idxZip := prev.indexedIn.foldl
        (fun acc e => if jsFalsy e.2 then acc else acc ++ [(e.1, jsKeyStr e.2)]) []
      if idxZip.isEmpty then
        (st1, some (.ok { index := index, length := len - 1 }), tr0 ++ [.trip])
      else
        let st2 := idxZip.foldl (fun s e => hashDel s e.1 e.2) st1
        (st2, some (.ok { index := index, length := len - 1 }), tr0 ++ [.trip, .trip])
  | (some (.ok []), tr0) => (st, none, tr0)
  | (some (.error _), tr0) => (st, some (.error .CollectionFieldInexistent), tr0)
  | (none, tr0) => (st, none, tr0)

/-! ## Queue operations -/

/-- `enqueue`: `RPUSH` of the canonically-serialized item. -/
def enqueue (st : RedisState) (q : String) (item : Json) : RedisState :=
  listPush st (toQueueName q) (jsonStableStringify item)

/-- `removeFromQueue`: `LREM 0` by the canonically-serialized value;
`QueueItemNotFound` when nothing was removed. -/
def removeFromQueue (st : RedisState) (q : String) (item : Json) :
    RedisState × Except StoreErr Unit :=
  let r := listRem st (toQueueName q) (jsonStableStringify item)
  (r.1, if 0 < r.2 then .ok () else .error .QueueItemNotFound)

/-! ## Depth structure of a foreign-key graph (for the round-trip bound)

The spec defines recursion depth by the engine itself: one level per
recursion, terminating when a level's compacted foreign-id set is empty
(§4.2 step 5).  `levelItems` computes the shallow metadata reached at each
level; a graph is `D` levels deep when levels `0..D-1` have non-empty
compacted sets and fetch successfully, and level `D` compacts to empty. -/

/-- The non-empty per-collection fetch lists of one recursion depth. -/
def levelGets (items : List ItemMetadata) : List (String × List String) :=
  (compactAllForeignKeys items).filter (fun e => ¬e.2.isEmpty)

/-- The batch replies of one recursion depth, validated and parsed. -/
def fetchLevel (st : RedisState) (items : List ItemMetadata) :
    JsRes (List (String × ItemMetadata)) :=
  parseReplies ((levelGets items).map (fun e =>
    (e.1, e.2.map (fun fid => hashGet st e.1 (toCollectionId e.1 fid)))))

/-- The shallow metadata batch at recursion depth `k` below `items`, when
every level on the way down is non-empty and fetches successfully. -/
def levelItems (st : RedisState) : List ItemMetadata → Nat → Option (List ItemMetadata)
  | items, 0 => some items
  | items, k + 1 =>
    if (levelGets items).isEmpty then none
    else
      match fetchLevel st items with
      | some (.ok flat) => levelItems st (flat.map Prod.snd) k
      | _ => none

/-! ## Structural equality of JSON values up to object key order (queues) -/

mutual

/-- Well-formed JSON: every object has pairwise-distinct keys. -/
def Json.wf : Json → Bool
  | .null => true
  | .bool _ => true
  | .num _ => true
  | .str _ => true
  | .arr xs => wfList xs
  | .obj fs => decide ((fs.map Prod.fst).Nodup) && wfFields fs

def wfList : List Json → Bool
  | [] => true
  | x :: xs => x.wf && wfList xs

def wfFields : List (String × Json) → Bool
  | [] => true
  | e :: es => e.2.wf && wfFields es

end

mutual

/-- `KeyPerm j1 j2`: `j2` is `j1` with object fields reordered arbitrarily at
any nesting level (values matched up to `KeyPerm` again) — the
specification's notion of a structurally-equal value regardless of field
order.  The `obj` constructor names the intermediate list `gs`: a permutation
of `fs` whose values are then rewritten pointwise under the same keys. -/
inductive KeyPerm : Json → Json → Prop where
  | null : KeyPerm .null .null
  | bool (b : Bool) : KeyPerm (.bool b) (.bool b)
  | num (n : Int) : KeyPerm (.num n) (.num n)
  | str (s : String) : KeyPerm (.str s) (.str s)
  | arr (xs ys : List Json) : KeyPermList xs ys → KeyPerm (.arr xs) (.arr ys)
  | obj (fs gs hs : List (String × Json)) : fs.Perm gs → KeyPermFields gs hs →
      KeyPerm (.obj fs) (.obj hs)

inductive KeyPermList : List Json → List Json → Prop where
  | nil : KeyPermList [] []
  | cons (x y : Json) (xs ys : List Json) :
      KeyPerm x y → KeyPermList xs ys → KeyPermList (x :: xs) (y :: ys)

inductive KeyPermFields : List (String × Json) → List (String × Json) → Prop where
  | nil : KeyPermFields [] []
  | cons (k : String) (v w : Json) (es fs2 : List (String × Json)) :
      KeyPerm v w → KeyPermFields es fs2 →
      KeyPermFields ((k, v) :: es) ((k, w) :: fs2)

end

/-! ## Operation sequences on a single record (index-consistency claim) -/

/-- An operation on the fixed record after its creation: an update with a
plain partial-value object, or a removal. -/
inductive TailOp where
  | upd (p : JsObj) : TailOp
  | rem : TailOp

/-- Apply one operation to the store state (successful-batch oracle). -/
def applyTailOp (fuel : Nat) (c i : String) (st : RedisState) : TailOp → RedisState
  | .upd p => (updateItem st fuel c i (fun _ => .ok p) [] false).1
  | .rem => (removeItem st c i false).1

/-- The state after creating the record (explicit id `i`, `indexBy := ixs`,
no foreign keys) in an empty store and applying `ops` in order. -/
def runSeq (fuel : Nat) (c i : String) (v0 : JsObj) (ixs : List String)
    (ops : List TailOp) : RedisState :=
  ops.foldl (applyTailOp fuel c i) (addItem emptyState fuel c v0 (some i) ixs [] false).1

/-- A sequence of additions without caller-supplied ids. -/
def addAuto (fuel : Nat) (c : String) (st : RedisState) (vals : List JsObj) : RedisState :=
  vals.foldl (fun s v => (addItem s fuel c v none [] [] false).1) st

/-- The string carried by an optional JSON value known to be a string. -/
def jsStrOf : Option Json → String
  | some (.str s) => s
  | _ => ""

/-- Invariant while the record is present: the stored metadata is at field
`i` of hash `c`, its `indexedIn` lists exactly the declared index collections
with the current (string) indexed values, and each index hash holds exactly
the one pointer current-value → id. -/
def C3Present (c i : String) (ixs : List String) (st : RedisState)
    (m : ItemMetadata) (strOf : String → String) : Prop :=
  hashGet st c i = some (.meta m) ∧
  m.id = i ∧
  m.foreignKeys = [] ∧
  m.indexedIn = ixs.map (fun f => (toIndexedCollectionName c f, Json.str (strOf f))) ∧
  (∀ f ∈ ixs, jsGet m.val f = some (.str (strOf f))) ∧
  (∀ f ∈ ixs, hashFields st (toIndexedCollectionName c f) = [(strOf f, .raw i)])

/-- Invariant after removal: the record is gone and each index hash is empty
— except possibly a dangling empty-string entry still pointing at `i` (the
removal loop skips falsy indexed values). -/
def C3Absent (c i : String) (ixs : List String) (st : RedisState) : Prop :=
  hashGet st c i = none ∧
  (∀ f ∈ ixs, hashFields st (toIndexedCollectionName c f) = [] ∨
    hashFields st (toIndexedCollectionName c f) = [("", .raw i)])

/-- Queue item `{a: 1, b: {c: 2, d: [3, 4]}}` (spec scenario 5). -/
def exQItem : Json :=
  .obj [("a", .num 1), ("b", .obj [("c", .num 2), ("d", .arr [.num 3, .num 4])])]

/-- The same item with keys reordered at every nesting level. -/
def exQItemReordered : Json :=
  .obj [("b", .obj [("d", .arr [.num 3, .num 4]), ("c", .num 2)]), ("a", .num 1)]

/-! ## Concrete example data used by counterexamples and witnesses -/

/-- `{name: "Gigi", age: 23}` added with id `g1` (spec scenario 1). -/
def exAddVal : JsObj := [("name", .str "Gigi"), ("age", .num 23)]

def exAddState : RedisState :=
  (addItem emptyState 1 "simpleItems" exAddVal (some "g1") [] [] false).1

/-- A record with two one-to-one foreign-key fields targeting the same
collection `users`: field `f1` references id `a`, field `f2` references
id `b`. -/
def exTwoFKItem : ItemMetadata :=
  { val := [("f1", .str "a"), ("f2", .str "b")]
    id := "p1"
    foreignKeys := [("f1", ⟨.oneToOne, "users"⟩), ("f2", ⟨.oneToOne, "users"⟩)] }

/-- A store holding `users/b` but not `users/a`, and the two-field record
`peers/p1` referencing both. -/
def exTwoFKState : RedisState :=
  { hashes := fun k =>
      if k = "users" then
        [("b", .meta { val := [("name", .str "B")], id := "b" }), ("_index", .raw "1")]
      else if k = "peers" then [("p1", .meta exTwoFKItem), ("_index", .raw "1")]
      else [] }

/-- Adding `challenges/c1` (indexed by `createdBy`, value `u1`) twice, the
second add overwriting it with value `u2` — a legal call sequence, since
`addItemToCollection` never checks for existence. -/
def exDoubleAddState : RedisState :=
  (addItem (addItem emptyState 1 "challenges" [("createdBy", .str "u1")] (some "c1")
      ["createdBy"] [] false).1
    1 "challenges" [("createdBy", .str "u2")] (some "c1") ["createdBy"] [] false).1

/-- Shallow metadata of `challenges/c1` as stored in `exDepth2State`. -/
def exChMeta : ItemMetadata :=
  { val := [("peer", .str "p1")], id := "c1",
    foreignKeys := [("peer", ⟨.oneToOne, "peers"⟩)] }

/-- Shallow metadata of `guests/g1` as stored in `exDepth2State`. -/
def exGuestMeta : ItemMetadata := { val := [("name", .str "Travolta")], id := "g1" }

/-- `guests/g1`, then `peers/p1` referencing it one-to-one, then
`challenges/c1` referencing the peer — a two-level foreign-key graph. -/
def exDepth2State : RedisState :=
  (addItem
    (addItem
      (addItem emptyState 1 "guests" [("name", .str "Travolta")] (some "g1") [] [] false).1
      2 "peers" [("user", .str "g1")] (some "p1") [] [("user", ⟨.oneToOne, "guests"⟩)] false).1
    3 "challenges" [("peer", .str "p1")] (some "c1") [] [("peer", ⟨.oneToOne, "peers"⟩)] false).1

/-! # Lemmas and claim theorems -/

lemma toIndexedCollectionName_ne (c f : String) : toIndexedCollectionName c f ≠ c := by
  intro h
  have hl := congrArg String.length h
  have h4 : (":by:" : String).length = 4 := rfl
  simp only [toIndexedCollectionName, String.length_append] at hl
  omega

lemma find?_fieldsSet_self (fs : List (String × StoredVal)) (f : String) (v : StoredVal) :
    (fieldsSet fs f v).find? (fun e => e.1 = f) = some (f, v) := by
  induction fs with
  | nil => simp [fieldsSet]
  | cons e rest ih =>
    by_cases h : e.1 = f
    · simp [fieldsSet, h]
    · simp [fieldsSet, h, List.find?, ih]

lemma find?_fieldsSet_ne (fs : List (String × StoredVal)) (f g : String) (v : StoredVal)
    (h : g ≠ f) :
    (fieldsSet fs f v).find? (fun e => e.1 = g) = fs.find? (fun e => e.1 = g) := by
  have hfg : ¬(f = g) := fun x => h x.symm
  induction fs with
  | nil => simp [fieldsSet, hfg]
  | cons e rest ih =>
    by_cases he : e.1 = f
    · subst he
      simp [fieldsSet, List.find?, hfg]
    · simp only [fieldsSet, if_neg he, List.find?]
      by_cases hg : e.1 = g
      · simp [hg]
      · simp [hg, ih]

lemma hashFields_hashSet_self (st : RedisState) (k f : String) (v : StoredVal) :
    hashFields (hashSet st k f v) k = fieldsSet (hashFields st k) f v := by
  simp [hashSet, hashFields]

lemma hashFields_hashSet_ne (st : RedisState) (k k2 f : String) (v : StoredVal)
    (h : k2 ≠ k) : hashFields (hashSet st k f v) k2 = hashFields st k2 := by
  simp [hashSet, hashFields, h]

lemma hashFields_hashDel_self (st : RedisState) (k f : String) :
    hashFields (hashDel st k f) k = (hashFields st k).filter (fun p => ¬p.1 = f) := by
  simp [hashDel, hashFields]

lemma hashFields_hashDel_ne (st : RedisState) (k k2 f : String) (h : k2 ≠ k) :
    hashFields (hashDel st k f) k2 = hashFields st k2 := by
  simp [hashDel, hashFields, h]

lemma hashGet_hashSet_self (st : RedisState) (k f : String) (v : StoredVal) :
    hashGet (hashSet st k f v) k f = some v := by
  unfold hashGet
  rw [hashFields_hashSet_self, find?_fieldsSet_self]

lemma hashGet_hashSet_ne_field (st : RedisState) (k f g : String) (v : StoredVal)
    (h : g ≠ f) : hashGet (hashSet st k f v) k g = hashGet st k g := by
  unfold hashGet
  rw [hashFields_hashSet_self, find?_fieldsSet_ne _ _ _ _ h]

lemma hashGet_hashSet_ne_key (st : RedisState) (k k2 f g : String) (v : StoredVal)
    (h : k2 ≠ k) : hashGet (hashSet st k f v) k2 g = hashGet st k2 g := by
  unfold hashGet
  rw [hashFields_hashSet_ne _ _ _ _ _ h]

lemma hashGet_foldl_hashSet_ne {β : Type} (l : List β) (keyf : β → String)
    (ff : β → String) (vf : β → StoredVal) (st : RedisState) (k g : String)
    (h : ∀ b ∈ l, keyf b ≠ k) :
    hashGet (l.foldl (fun s b => hashSet s (keyf b) (ff b) (vf b)) st) k g =
      hashGet st k g := by
  induction l generalizing st with
  | nil => rfl
  | cons b rest ih =>
    simp only [List.foldl]
    rw [ih _ (fun x hx => h x (List.mem_cons_of_mem _ hx)),
      hashGet_hashSet_ne_key _ _ _ _ _ _ (fun hk => h b (List.mem_cons_self _ _) hk.symm)]


/-- C10: `getItemsInCollection` with an empty id list succeeds with the empty
result, performs no backing-store round trip (empty trace) and never fails:
the empty request is not a missing-field error. -/
theorem C10_empty_ids_get (st : RedisState) (fuel : Nat) (c : String) :
    getItemsInCollection st (fuel + 1) c [] = (some (.ok []), []) := rfl

/-- C6: the compaction step drops foreign ids when one record declares two
foreign-key fields with the same target collection — the accumulator is read
at the field name (`...p[k]`) but written at the collection name, so for
`exTwoFKItem` (fields `f1` → `users/a` and `f2` → `users/b`) the compacted
mapping holds only `b`, not the claimed set of all referenced ids per
declared field. -/
theorem C6_compaction_drops_sibling_field :
    compactAllForeignKeys [exTwoFKItem] = [("users", ["b"])] ∧
    "a" ∉ lookupIds (compactAllForeignKeys [exTwoFKItem]) "users" := by
  exact ⟨rfl, by decide⟩

/-- C2: on `exTwoFKState` the foreign id `a` referenced by field `f1` of
`peers/p1` is absent from collection `users`, yet `getItemInCollection`
does not fail with `CollectionFieldInexistent`: the compaction slip drops
`a` from the fetch set, resolution succeeds, and the caller-shape mapping
dereferences the missing resolved record (a crash, modelled as `none`). -/
theorem C2_missing_foreign_id_crashes :
    hashGet exTwoFKState "users" "a" = none ∧
    jsGet exTwoFKItem.val "f1" = some (.str "a") ∧
    (getItemInCollection exTwoFKState 2 "peers" "p1").1 = none := ⟨rfl, rfl, rfl⟩

/-- C5 (counterexample): after adding `{name: "Gigi", age: 23}` with id `g1`
to `simpleItems`, the per-collection hash has no field `simpleItems:g1` —
the record is stored under the field named by the bare id `g1`
(`toCollectionId` ignores the collection name). -/
theorem C5_field_name_counterexample :
    hashGet exAddState "simpleItems" "simpleItems:g1" = none ∧
    hashGet exAddState "simpleItems" "g1" =
      some (.meta { val := exAddVal, id := "g1" }) := ⟨rfl, rfl⟩

/-- C5 (amended): every record written by add is persisted in the
per-collection hash under a field named `<id>` (not `<collectionName>:<id>`:
`toCollectionId` returns the bare id), holding the JSON-serialized record
metadata (`wireString` = `serializeMetadata`), alongside the reserved
`_index` field holding the decimal string of the incremented id counter. -/
theorem C5_record_layout (st : RedisState) (c id : String) (val : JsObj)
    (indexBy : List String) (fks : List (String × FKDecl)) (fuel : Nat)
    (hid : id ≠ "_index") :
    toCollectionId c id = id ∧
    hashGet (addItem st fuel c val (some id) indexBy fks false).1 c id =
      some (.meta
        { val := val, id := id, foreignKeys := fks,
          indexedIn :=
            if indexBy.isEmpty then []
            else indexBy.foldl
              (fun acc f => jsSet acc (toIndexedCollectionName c f) ((jsGet val f).getD .null))
              [] }) ∧
    (hashGet (addItem st fuel c val (some id) indexBy fks false).1 c id).map wireString =
      some (serializeMetadata
        { val := val, id := id, foreignKeys := fks,
          indexedIn :=
            if indexBy.isEmpty then []
            else indexBy.foldl
              (fun acc f => jsSet acc (toIndexedCollectionName c f) ((jsGet val f).getD .null))
              [] }) ∧
    hashGet (addItem st fuel c val (some id) indexBy fks false).1 c "_index" =
      some (.raw (toString (decOf (hashGet st c "_index") + 1))) := by
  have hrec : hashGet (addItem st fuel c val (some id) indexBy fks false).1 c id =
      some (.meta
        { val := val, id := id, foreignKeys := fks,
          indexedIn :=
            if indexBy.isEmpty then []
            else indexBy.foldl
              (fun acc f => jsSet acc (toIndexedCollectionName c f) ((jsGet val f).getD .null))
              [] }) := by
    simp only [addItem, Bool.false_eq_true, if_false, toCollectionId]
    rw [hashGet_foldl_hashSet_ne _ _ _ _ _ _ _
      (fun f _ => toIndexedCollectionName_ne c f)]
    rw [hashIncr]
    simp only
    rw [hashGet_hashSet_ne_field _ _ _ _ _ hid, hashGet_hashSet_self]
  refine ⟨rfl, hrec, ?_, ?_⟩
  · rw [hrec]; rfl
  · simp only [addItem, Bool.false_eq_true, if_false, toCollectionId]
    rw [hashGet_foldl_hashSet_ne _ _ _ _ _ _ _
      (fun f _ => toIndexedCollectionName_ne c f)]
    rw [hashIncr]
    simp only
    rw [hashGet_hashSet_self,
      hashGet_hashSet_ne_field _ _ _ _ _ (fun hh => hid hh.symm)]

/-- C5 witness. -/
theorem C5_record_layout_witness :
    ("g1" : String) ≠ "_index" ∧
    (toCollectionId "simpleItems" "g1" = "g1" ∧
     hashGet exAddState "simpleItems" "g1" =
       some (.meta { val := exAddVal, id := "g1", foreignKeys := [], indexedIn := (if ([] : List String).isEmpty then [] else ([] : List String).foldl (fun acc f => jsSet acc (toIndexedCollectionName "simpleItems" f) ((jsGet exAddVal f).getD .null)) []) }) ∧
     (hashGet exAddState "simpleItems" "g1").map wireString =
       some (serializeMetadata { val := exAddVal, id := "g1", foreignKeys := [], indexedIn := (if ([] : List String).isEmpty then [] else ([] : List String).foldl (fun acc f => jsSet acc (toIndexedCollectionName "simpleItems" f) ((jsGet exAddVal f).getD .null)) []) }) ∧
     hashGet exAddState "simpleItems" "_index" =
       some (.raw (toString (decOf (hashGet emptyState "simpleItems" "_index") + 1)))) :=
  ⟨by decide, C5_record_layout emptyState "simpleItems" "g1" exAddVal [] [] 1 (by decide)⟩

/-- C4: an update whose declared `foreignKeys` are not deeply equal to the
stored ones fails with `CollectionUpdateFailure:MismatchingForeignKeys`
before any write: the state is returned unchanged, whatever the merge
function and even under a failing-batch oracle. -/
theorem C4_mismatching_fks_rejected (st : RedisState) (fuel : Nat) (c id : String)
    (prev : ItemMetadata) (getter : JsObj → Except Unit JsObj)
    (declared : List (String × FKDecl)) (bf : Bool)
    (hprev : hashGet st c id = some (.meta prev))
    (hmm : fkMapEq declared prev.foreignKeys = false) :
    updateItem st fuel c id getter declared bf =
      (st, some (.error .CollectionUpdateFailureMismatchingForeignKeys),
       [.acquire ("locked:" ++ c ++ ":" ++ id), .trip,
        .release ("locked:" ++ c ++ ":" ++ id)]) := by
  have hsh : getShallowItems st c [id] = (some (.ok [prev]), [.trip]) := by
    simp [getShallowItems, toCollectionId, hprev]
  simp [updateItem, hsh, hmm]

/-- C4 witness. -/
theorem C4_mismatching_fks_witness :
    hashGet exAddState "simpleItems" "g1" =
      some (.meta { val := exAddVal, id := "g1" }) ∧
    fkMapEq [("user", ⟨.oneToOne, "guests"⟩)]
      ({ val := exAddVal, id := "g1" } : ItemMetadata).foreignKeys = false ∧
    updateItem exAddState 1 "simpleItems" "g1" (fun _ => .ok [])
        [("user", ⟨.oneToOne, "guests"⟩)] false =
      (exAddState, some (.error .CollectionUpdateFailureMismatchingForeignKeys),
       [.acquire ("locked:" ++ "simpleItems" ++ ":" ++ "g1"), .trip,
        .release ("locked:" ++ "simpleItems" ++ ":" ++ "g1")]) :=
  ⟨rfl, rfl,
    C4_mismatching_fks_rejected exAddState 1 "simpleItems" "g1"
      { val := exAddVal, id := "g1" } (fun _ => .ok [])
      [("user", ⟨.oneToOne, "guests"⟩)] false rfl rfl⟩


lemma addItem_auto_step (st : RedisState) (fuel : Nat) (c : String) (v : JsObj) (n : Nat)
    (hc : hashGet st c "_index" = some (.raw (toString n)) ∨
          (hashGet st c "_index" = none ∧ n = 0))
    (hrt : decToNat? (toString n) = some n)
    (hne : toString (n + 1) ≠ "_index") :
    hashGet (addItem st fuel c v none [] [] false).1 c (toString (n + 1)) =
      some (.meta { val := v, id := toString (n + 1) }) ∧
    hashGet (addItem st fuel c v none [] [] false).1 c "_index" =
      some (.raw (toString (n + 1))) ∧
    (∀ g, g ≠ toString (n + 1) → g ≠ "_index" →
      hashGet (addItem st fuel c v none [] [] false).1 c g = hashGet st c g) ∧
    (∀ k2 g, k2 ≠ c → hashGet (addItem st fuel c v none [] [] false).1 k2 g =
      hashGet st k2 g) := by
  have hres : (addItem st fuel c v none [] [] false).1 =
      (hashIncr (hashSet st c (toString (n + 1))
        (.meta { val := v, id := toString (n + 1) })) c "_index").1 := by
    rcases hc with hc | ⟨hc, hn0⟩
    · have hdec : decOf (some (.raw (toString n))) = n := by simp [decOf, hrt]
      simp [addItem, hc, hdec, toCollectionId]
    · subst hn0
      have h1 : (toString (0 + 1) : String) = "1" := rfl
      simp [addItem, hc, toCollectionId, h1]
  have hinner : hashGet (hashSet st c (toString (n + 1))
      (.meta { val := v, id := toString (n + 1) })) c "_index" = hashGet st c "_index" :=
    hashGet_hashSet_ne_field _ _ _ _ _ (fun hh => hne hh.symm)
  have hcount : decOf (hashGet (hashSet st c (toString (n + 1))
      (.meta { val := v, id := toString (n + 1) })) c "_index") + 1 = n + 1 := by
    rw [hinner]
    rcases hc with hc | ⟨hc, hn0⟩
    · rw [hc]; simp [decOf, hrt]
    · rw [hc]; simp [decOf, hn0]
  refine ⟨?_, ?_, ?_, ?_⟩
  · rw [hres, hashIncr]
    simp only
    rw [hashGet_hashSet_ne_field _ _ _ _ _ hne, hashGet_hashSet_self]
  · rw [hres, hashIncr]
    simp only
    rw [hashGet_hashSet_self, hcount]
  · intro g hg1 hg2
    rw [hres, hashIncr]
    simp only
    rw [hashGet_hashSet_ne_field _ _ _ _ _ hg2,
      hashGet_hashSet_ne_field _ _ _ _ _ hg1]
  · intro k2 g hk
    rw [hres, hashIncr]
    simp only
    rw [hashGet_hashSet_ne_key _ _ _ _ _ _ hk, hashGet_hashSet_ne_key _ _ _ _ _ _ hk]


lemma addAuto_inv (fuel : Nat) (c : String) :
    ∀ (vals : List JsObj) (st : RedisState) (n : Nat),
    ((hashGet st c "_index" = some (.raw (toString n)) ∧ 0 < n) ∨
      (hashGet st c "_index" = none ∧ n = 0)) →
    (∀ j, j ≤ n + vals.length → decToNat? (toString j) = some j ∧ toString j ≠ "_index") →
    (vals ≠ [] →
      hashGet (addAuto fuel c st vals) c "_index" =
        some (.raw (toString (n + vals.length)))) ∧
    (∀ j, (hj1 : n < j) → (hj2 : j ≤ n + vals.length) →
      hashGet (addAuto fuel c st vals) c (toString j) =
        some (.meta { val := vals.get ⟨j - n - 1, by omega⟩, id := toString j })) ∧
    (∀ g, (∀ j, n < j → j ≤ n + vals.length → g ≠ toString j) → g ≠ "_index" →
      hashGet (addAuto fuel c st vals) c g = hashGet st c g) := by
  intro vals
  induction vals with
  | nil =>
    intro st n hc hrt
    refine ⟨fun h => absurd rfl h, ?_, fun g _ _ => rfl⟩
    intro j hj1 hj2
    simp only [List.length_nil, Nat.add_zero] at hj2
    exact absurd hj1 (by omega)
  | cons v rest ih =>
    intro st n hc hrt
    have hstep := addItem_auto_step st fuel c v n
      (by rcases hc with ⟨h1, _⟩ | ⟨h1, h2⟩
          · exact Or.inl h1
          · exact Or.inr ⟨h1, h2⟩)
      (hrt n (by simp)).1
      (hrt (n + 1) (by simp only [List.length_cons]; omega)).2
    have hih := ih (addItem st fuel c v none [] [] false).1 (n + 1)
      (Or.inl ⟨hstep.2.1, by omega⟩)
      (fun j hj => hrt j (by simp only [List.length_cons]; omega))
    have hinj : ∀ a b : Nat, a ≤ n + (v :: rest).length → b ≤ n + (v :: rest).length →
        toString a = toString b → a = b := by
      intro a b ha hb he
      have h1 := (hrt a ha).1
      have h2 := (hrt b hb).1
      rw [he, h2] at h1
      exact (Option.some.inj h1).symm
    have hunf : addAuto fuel c st (v :: rest) =
        addAuto fuel c (addItem st fuel c v none [] [] false).1 rest := rfl
    refine ⟨?_, ?_, ?_⟩
    · intro _
      by_cases hr2 : rest = []
      · subst hr2
        rw [hunf]
        show hashGet (addItem st fuel c v none [] [] false).1 c "_index" = _
        rw [hstep.2.1]
        have : n + ([v] : List JsObj).length = n + 1 := by simp
        rw [this]
      · rw [hunf]
        have hcc := hih.1 hr2
        have hlen : (n + 1) + rest.length = n + (v :: rest).length := by
          simp only [List.length_cons]; omega
        rw [hlen] at hcc
        exact hcc
    · intro j hj1 hj2
      rw [hunf]
      by_cases hj : j = n + 1
      · subst hj
        have hfr := hih.2.2 (toString (n + 1))
          (fun j2 hja hjb heq =>
            (by omega : ¬(n + 1 = j2)) (hinj (n + 1) j2
              (by simp only [List.length_cons]; omega)
              (by simp only [List.length_cons]; omega) heq))
          (hrt (n + 1) (by simp only [List.length_cons]; omega)).2
        rw [hfr, hstep.1]
        simp
      · have hrec := hih.2.1 j (by omega)
          (by simp only [List.length_cons] at hj2 ⊢; omega)
        rw [hrec]
        obtain ⟨i, hi⟩ : ∃ i, j - n - 1 = i + 1 := ⟨j - n - 2, by omega⟩
        have hi2 : j - (n + 1) - 1 = i := by omega
        simp only [hi, hi2]
        rfl
    · intro g hg hgi
      rw [hunf, hih.2.2 g
        (fun j hja hjb => hg j (by omega) (by simp only [List.length_cons]; omega)) hgi]
      exact hstep.2.2.1 g
        (hg (n + 1) (by omega) (by simp only [List.length_cons]; omega)) hgi

/-- C7: adding without a caller-supplied id assigns sequential string ids
matching the collection's running counter.  (a) The first addition to a fresh
collection (no stored counter) assigns id `"1"` and leaves the counter at
`"1"`; (b) with a stored counter `n`, an auto-id add resolves the id to the
decimal string of `n + 1` and increments the counter to the same value within
the same atomic batch as the record write; (c) a whole sequence of auto-id
adds to a fresh collection stores record `j` under id `toString j` for
`j = 1..k`.  The two arithmetic side conditions are round-trip facts about
decimal rendering (`toString j` parses back to `j` and is never the reserved
field name `_index`), true of every `j`. -/
theorem C7_sequential_auto_ids (st : RedisState) (fuel : Nat) (c : String)
    (vals : List JsObj) (v : JsObj)
    (hfresh : hashGet st c "_index" = none)
    (hrt : ∀ j, j ≤ vals.length → decToNat? (toString j) = some j ∧ toString j ≠ "_index") :
    (hashGet (addItem st fuel c v none [] [] false).1 c "1" =
        some (.meta { val := v, id := "1" }) ∧
      hashGet (addItem st fuel c v none [] [] false).1 c "_index" =
        some (.raw "1")) ∧
    (∀ (st2 : RedisState) (n2 : Nat) (v2 : JsObj),
      hashGet st2 c "_index" = some (.raw (toString n2)) →
      decToNat? (toString n2) = some n2 → toString (n2 + 1) ≠ "_index" →
      hashGet (addItem st2 fuel c v2 none [] [] false).1 c (toString (n2 + 1)) =
          some (.meta { val := v2, id := toString (n2 + 1) }) ∧
        hashGet (addItem st2 fuel c v2 none [] [] false).1 c "_index" =
          some (.raw (toString (n2 + 1)))) ∧
    (∀ j, (hj1 : 0 < j) → (hj2 : j ≤ vals.length) →
      hashGet (addAuto fuel c st vals) c (toString j) =
        some (.meta { val := vals.get ⟨j - 1, by omega⟩, id := toString j })) := by
  refine ⟨?_, ?_, ?_⟩
  · have hstep := addItem_auto_step st fuel c v 0 (Or.inr ⟨hfresh, rfl⟩)
      (by decide) (by decide)
    exact ⟨hstep.1, hstep.2.1⟩
  · intro st2 n2 v2 hc2 hrt2 hne2
    have hstep := addItem_auto_step st2 fuel c v2 n2 (Or.inl hc2) hrt2 hne2
    exact ⟨hstep.1, hstep.2.1⟩
  · intro j hj1 hj2
    have hinv := (addAuto_inv fuel c vals st 0 (Or.inr ⟨hfresh, rfl⟩)
      (fun j2 hj3 => hrt j2 (by omega))).2.1 j (by omega) (by omega)
    rw [hinv]
    have : j - 0 - 1 = j - 1 := by omega
    simp only [this]

/-- C7 witness. -/
theorem C7_sequential_auto_ids_witness :
    hashGet emptyState "guests" "_index" = none ∧
    (∀ j, j ≤ ([exAddVal, exAddVal, exAddVal] : List JsObj).length →
      decToNat? (toString j) = some j ∧ toString j ≠ "_index") ∧
    ((hashGet (addItem emptyState 1 "guests" exAddVal none [] [] false).1 "guests" "1" =
        some (.meta { val := exAddVal, id := "1" }) ∧
      hashGet (addItem emptyState 1 "guests" exAddVal none [] [] false).1 "guests" "_index" =
        some (.raw "1")) ∧
    (∀ (st2 : RedisState) (n2 : Nat) (v2 : JsObj),
      hashGet st2 "guests" "_index" = some (.raw (toString n2)) →
      decToNat? (toString n2) = some n2 → toString (n2 + 1) ≠ "_index" →
      hashGet (addItem st2 1 "guests" v2 none [] [] false).1 "guests" (toString (n2 + 1)) =
          some (.meta { val := v2, id := toString (n2 + 1) }) ∧
        hashGet (addItem st2 1 "guests" v2 none [] [] false).1 "guests" "_index" =
          some (.raw (toString (n2 + 1)))) ∧
    (∀ j, (hj1 : 0 < j) →
      (hj2 : j ≤ ([exAddVal, exAddVal, exAddVal] : List JsObj).length) →
      hashGet (addAuto 1 "guests" emptyState [exAddVal, exAddVal, exAddVal]) "guests"
          (toString j) =
        some (.meta { val := List.get [exAddVal, exAddVal, exAddVal] ⟨j - 1, by omega⟩, id := toString j }))) :=
  ⟨rfl, by decide,
    C7_sequential_auto_ids emptyState 1 "guests" [exAddVal, exAddVal, exAddVal] exAddVal
      rfl (by decide)⟩


lemma lockEvents_append (a b : List Ev) :
    lockEvents (a ++ b) = lockEvents a ++ lockEvents b := by
  simp [lockEvents]

lemma lockEvents_acquire (l : String) : lockEvents [Ev.acquire l] = [Ev.acquire l] := rfl

lemma lockEvents_release (l : String) : lockEvents [Ev.release l] = [Ev.release l] := rfl

lemma lockEvents_trip : lockEvents [Ev.trip] = [] := rfl

lemma lockEvents_trip_release (l : String) :
    lockEvents [Ev.trip, Ev.release l] = [Ev.release l] := rfl

lemma lockEvents_nil : lockEvents [] = [] := rfl

lemma lockEvents_cons_acquire (l : String) (t : List Ev) :
    lockEvents (Ev.acquire l :: t) = Ev.acquire l :: lockEvents t := by
  simp [lockEvents, List.filter, isLockEv]

lemma lockEvents_cons_release (l : String) (t : List Ev) :
    lockEvents (Ev.release l :: t) = Ev.release l :: lockEvents t := by
  simp [lockEvents, List.filter, isLockEv]

lemma lockEvents_cons_trip (t : List Ev) :
    lockEvents (Ev.trip :: t) = lockEvents t := by
  simp [lockEvents, List.filter, isLockEv]

lemma lockEvents_getShallow (st : RedisState) (c : String) (ids : List String) :
    lockEvents (getShallowItems st c ids).2 = [] := by
  unfold getShallowItems
  split
  · rfl
  · rfl

lemma lockEvents_replicate (n : Nat) : lockEvents (List.replicate n Ev.trip) = [] := by
  induction n with
  | zero => rfl
  | succ k ih => rw [List.replicate_succ, lockEvents_cons_trip, ih]

lemma lockEvents_getWithMeta (st : RedisState) (fuel : Nat) (c : String)
    (ids : List String) :
    lockEvents (getItemsWithMetadata st fuel c ids).2 = [] := by
  unfold getItemsWithMetadata
  rcases hs : getShallowItems st c ids with ⟨res, tr⟩
  have h1 : lockEvents tr = [] := by
    have := lockEvents_getShallow st c ids
    rw [hs] at this
    exact this
  match res with
  | none => simpa [hs] using h1
  | some (.error er) => simpa [hs] using h1
  | some (.ok metas) => simp [hs, lockEvents_append, h1, lockEvents_replicate]

lemma lockEvents_getItems (st : RedisState) (fuel : Nat) (c : String)
    (ids : List String) :
    lockEvents (getItemsInCollection st fuel c ids).2 = [] := by
  unfold getItemsInCollection
  rcases hs : getItemsWithMetadata st fuel c ids with ⟨res, tr⟩
  have h1 : lockEvents tr = [] := by
    have := lockEvents_getWithMeta st fuel c ids
    rw [hs] at this
    exact this
  match res with
  | none => simpa [hs] using h1
  | some (.error er) => simpa [hs] using h1
  | some (.ok rs) =>
    cases hm : mapToItems rs with
    | none => simpa [hs, hm] using h1
    | some items => simpa [hs, hm] using h1

lemma lockEvents_getItem (st : RedisState) (fuel : Nat) (c id : String) :
    lockEvents (getItemInCollection st fuel c id).2 = [] := by
  unfold getItemInCollection
  rcases hs : getItemsInCollection st fuel c [id] with ⟨res, tr⟩
  have h1 : lockEvents tr = [] := by
    have := lockEvents_getItems st fuel c [id]
    rw [hs] at this
    exact this
  match res with
  | none => simpa [hs] using h1
  | some (.error er) => simpa [hs] using h1
  | some (.ok []) => simpa [hs] using h1
  | some (.ok (it :: rest)) => simpa [hs] using h1

/-- C8: on every exit path of `updateItemInCollection` — success, missing
item, mismatching foreign keys, failing merge function, failing store batch,
and even a crash of the post-write refetch — the item lock is acquired once
and then released, and likewise the collection lock on every exit path of
`addItemToCollection`: a failed operation never leaves the resource locked. -/
theorem C8_locks_always_released (st : RedisState) (fuel : Nat) (c id : String)
    (val : JsObj) (idOpt : Option String) (indexBy : List String)
    (fks declared : List (String × FKDecl)) (getter : JsObj → Except Unit JsObj)
    (bf : Bool) :
    lockEvents (updateItem st fuel c id getter declared bf).2.2 =
      [.acquire ("locked:" ++ c ++ ":" ++ id),
       .release ("locked:" ++ c ++ ":" ++ id)] ∧
    lockEvents (addItem st fuel c val idOpt indexBy fks bf).2.2 =
      [.acquire ("locked:" ++ c), .release ("locked:" ++ c)] := by
  constructor
  · rcases hs : getShallowItems st c [id] with ⟨res, tr0⟩
    have htr0 : lockEvents tr0 = [] := by
      have := lockEvents_getShallow st c [id]
      rw [hs] at this
      exact this
    match res with
    | none =>
      simp [updateItem, hs, lockEvents_append, htr0, lockEvents_acquire, lockEvents_release,
        lockEvents_cons_acquire, lockEvents_cons_release, lockEvents_cons_trip,
        lockEvents_nil]
    | some (.error er) =>
      simp [updateItem, hs, lockEvents_append, htr0, lockEvents_acquire, lockEvents_release,
        lockEvents_cons_acquire, lockEvents_cons_release, lockEvents_cons_trip,
        lockEvents_nil]
    | some (.ok []) =>
      simp [updateItem, hs, lockEvents_append, htr0, lockEvents_acquire, lockEvents_release,
        lockEvents_cons_acquire, lockEvents_cons_release, lockEvents_cons_trip,
        lockEvents_nil]
    | some (.ok (prev :: rest)) =>
      by_cases hfk : fkMapEq declared prev.foreignKeys = true
      · cases hg : getter prev.val with
        | error e =>
          simp [updateItem, hs, hfk, hg, lockEvents_append, htr0, lockEvents_acquire,
            lockEvents_release, lockEvents_cons_acquire, lockEvents_cons_release,
            lockEvents_cons_trip, lockEvents_nil]
        | ok itemModel =>
          cases bf with
          | true =>
            simp [updateItem, hs, hfk, hg, lockEvents_append, htr0, lockEvents_acquire,
              lockEvents_release, lockEvents_trip_release, lockEvents_cons_acquire,
              lockEvents_cons_release, lockEvents_cons_trip, lockEvents_nil]
          | false =>
            simp [updateItem, hs, hfk, hg, lockEvents_append, htr0, lockEvents_acquire,
              lockEvents_release, lockEvents_trip, lockEvents_getItem,
              lockEvents_cons_acquire, lockEvents_cons_release, lockEvents_cons_trip,
              lockEvents_nil]
      · have hfk2 : fkMapEq declared prev.foreignKeys = false := by
          cases h2 : fkMapEq declared prev.foreignKeys
          · rfl
          · exact absurd h2 hfk
        simp [updateItem, hs, hfk2, lockEvents_append, htr0, lockEvents_acquire,
          lockEvents_release, lockEvents_cons_acquire, lockEvents_cons_release,
          lockEvents_cons_trip, lockEvents_nil]
  · cases bf with
    | true =>
      cases idOpt with
      | some i =>
        simp [addItem, lockEvents_append, lockEvents_acquire, lockEvents_trip_release,
          lockEvents_cons_acquire, lockEvents_cons_release, lockEvents_cons_trip,
          lockEvents_nil]
      | none =>
        cases hc : hashGet st c "_index" with
        | none =>
          simp [addItem, hc, lockEvents_append, lockEvents_acquire, lockEvents_trip,
            lockEvents_trip_release, lockEvents_cons_acquire, lockEvents_cons_release,
            lockEvents_cons_trip, lockEvents_nil]
        | some v0 =>
          simp [addItem, hc, lockEvents_append, lockEvents_acquire, lockEvents_trip,
            lockEvents_trip_release, lockEvents_cons_acquire, lockEvents_cons_release,
            lockEvents_cons_trip, lockEvents_nil]
    | false =>
      cases idOpt with
      | some i =>
        simp [addItem, lockEvents_append, lockEvents_acquire, lockEvents_release,
          lockEvents_trip, lockEvents_getItem, lockEvents_cons_acquire,
          lockEvents_cons_release, lockEvents_cons_trip, lockEvents_nil]
      | none =>
        cases hc : hashGet st c "_index" with
        | none =>
          simp [addItem, hc, lockEvents_append, lockEvents_acquire, lockEvents_release,
            lockEvents_trip, lockEvents_getItem, lockEvents_cons_acquire,
            lockEvents_cons_release, lockEvents_cons_trip, lockEvents_nil]
        | some v0 =>
          simp [addItem, hc, lockEvents_append, lockEvents_acquire, lockEvents_release,
            lockEvents_trip, lockEvents_getItem, lockEvents_cons_acquire,
            lockEvents_cons_release, lockEvents_cons_trip, lockEvents_nil]

lemma tripCount_cons_trip (t : List Ev) : tripCount (Ev.trip :: t) = tripCount t + 1 := by
  simp [tripCount, List.filter]

lemma tripCount_replicate (n : Nat) : tripCount (List.replicate n Ev.trip) = n := by
  induction n with
  | zero => rfl
  | succ k ih => rw [List.replicate_succ, tripCount_cons_trip, ih]

lemma resolve_trips (st : RedisState) :
    ∀ (D : Nat) (items last : List ItemMetadata) (fuel : Nat),
    levelItems st items D = some last →
    (levelGets last).isEmpty = true →
    D < fuel →
    ∃ rs, resolveForeignItems st fuel items = (some (.ok rs), D) := by
  intro D
  induction D with
  | zero =>
    intro items last fuel hlev hend hfuel
    have hitems : items = last := by
      simpa [levelItems] using hlev
    subst hitems
    match fuel, hfuel with
    | f + 1, _ =>
      refine ⟨items.map (fun m => .mk m.val m.id [] []), ?_⟩
      simp only [resolveForeignItems]
      rw [show ((compactAllForeignKeys items).filter (fun e => ¬e.2.isEmpty)) =
        levelGets items from rfl, hend]
      simp
  | succ k ih =>
    intro items last fuel hlev hend hfuel
    rw [levelItems] at hlev
    by_cases hne : (levelGets items).isEmpty = true
    · rw [if_pos hne] at hlev
      exact absurd hlev (by simp)
    · rw [if_neg hne] at hlev
      match hf : fetchLevel st items with
      | none => rw [hf] at hlev; exact absurd hlev (by simp)
      | some (.error er) => rw [hf] at hlev; exact absurd hlev (by simp)
      | some (.ok flat) =>
        rw [hf] at hlev
        match fuel, hfuel with
        | f + 1, hfuel =>
          obtain ⟨rs, hrs⟩ := ih (flat.map Prod.snd) last f hlev hend (by omega)
          refine ⟨items.map (reassemble (((flat.map Prod.fst).zip rs).foldl
            (fun g cr => groupedSet g cr.1 cr.2) [])), ?_⟩
          simp only [resolveForeignItems]
          rw [show ((compactAllForeignKeys items).filter (fun e => ¬e.2.isEmpty)) =
            levelGets items from rfl]
          rw [if_neg (by simp [hne])]
          have hfl : parseReplies ((levelGets items).map (fun e =>
              (e.1, e.2.map (fun fid => hashGet st e.1 (toCollectionId e.1 fid))))) =
              some (.ok flat) := hf
          rw [hfl]
          simp only [hrs]
          rw [Nat.add_comm]

/-- C1: fetching records whose foreign-key graph is `D` levels deep (levels
`0..D-1` compact to non-empty foreign-id sets and fetch successfully; level
`D` compacts to empty, the engine's own termination notion from §4.2 step 5)
performs exactly `D + 1` backing-store round trips — one shallow `HMGET` for
the requested ids plus one atomic `MULTI` batch per recursion depth, however
many sibling records, distinct foreign ids or distinct target collections
each depth involves. -/
theorem C1_round_trips_depth_plus_one (st : RedisState) (fuel D : Nat) (c : String)
    (ids : List String) (metas last : List ItemMetadata)
    (hsh : getShallowItems st c ids = (some (.ok metas), [.trip]))
    (hlev : levelItems st metas D = some last)
    (hend : (levelGets last).isEmpty = true)
    (hfuel : D < fuel) :
    (∃ rs, getItemsWithMetadata st fuel c ids =
      (some (.ok rs), .trip :: List.replicate D .trip)) ∧
    tripCount (getItemsWithMetadata st fuel c ids).2 = D + 1 ∧
    tripCount (getItemsInCollection st fuel c ids).2 = D + 1 := by
  obtain ⟨rs, hres⟩ := resolve_trips st D metas last fuel hlev hend hfuel
  have hw : getItemsWithMetadata st fuel c ids =
      (some (.ok rs), .trip :: List.replicate D .trip) := by
    simp [getItemsWithMetadata, hsh, hres]
  have hcount : tripCount (Ev.trip :: List.replicate D Ev.trip) = D + 1 := by
    rw [tripCount_cons_trip, tripCount_replicate]
  refine ⟨⟨rs, hw⟩, ?_, ?_⟩
  · rw [hw]; exact hcount
  · have htr : (getItemsInCollection st fuel c ids).2 =
        Ev.trip :: List.replicate D Ev.trip := by
      unfold getItemsInCollection
      rw [hw]
      cases hm : mapToItems rs with
      | none => simp only [hm]
      | some items => simp only [hm]
    rw [htr]
    exact hcount

/-- C1 witness: the two-level graph challenge → peer → guest fetched with 3
round trips. -/
theorem C1_round_trips_witness :
    getShallowItems exDepth2State "challenges" ["c1"] =
      (some (.ok [exChMeta]), [.trip]) ∧
    levelItems exDepth2State [exChMeta] 2 = some [exGuestMeta] ∧
    (levelGets [exGuestMeta]).isEmpty = true ∧
    (2 : Nat) < 3 ∧
    ((∃ rs, getItemsWithMetadata exDepth2State 3 "challenges" ["c1"] =
      (some (.ok rs), .trip :: List.replicate 2 .trip)) ∧
    tripCount (getItemsWithMetadata exDepth2State 3 "challenges" ["c1"]).2 = 2 + 1 ∧
    tripCount (getItemsInCollection exDepth2State 3 "challenges" ["c1"]).2 = 2 + 1) :=
  ⟨rfl, rfl, rfl, by decide,
    C1_round_trips_depth_plus_one exDepth2State 3 2 "challenges" ["c1"]
      [exChMeta] [exGuestMeta] rfl rfl rfl (by decide)⟩

lemma strCmpLe_total : ∀ as bs : List Char, strCmpLe as bs = true ∨ strCmpLe bs as = true := by
  intro as
  induction as with
  | nil => intro bs; left; cases bs <;> rfl
  | cons a as2 ih =>
    intro bs
    cases bs with
    | nil => right; rfl
    | cons b bs2 =>
      rcases Nat.lt_trichotomy a.toNat b.toNat with h | h | h
      · left; simp [strCmpLe, h]
      · rcases ih bs2 with h2 | h2
        · left; simp [strCmpLe, h, h2]
        · right; simp [strCmpLe, h, h2]
      · right; simp [strCmpLe, h]

lemma strCmpLe_trans : ∀ as bs cs : List Char, strCmpLe as bs = true →
    strCmpLe bs cs = true → strCmpLe as cs = true := by
  intro as
  induction as with
  | nil => intro bs cs _ _; cases cs <;> rfl
  | cons a as2 ih =>
    intro bs cs h1 h2
    cases bs with
    | nil => simp [strCmpLe] at h1
    | cons b bs2 =>
      cases cs with
      | nil => simp [strCmpLe] at h2
      | cons c cs2 =>
        simp only [strCmpLe] at h1 h2 ⊢
        by_cases hab : a.toNat < b.toNat
        · by_cases hbc : b.toNat < c.toNat
          · simp [show a.toNat < c.toNat from by omega]
          · by_cases hcb : c.toNat < b.toNat
            · simp [hbc, hcb] at h2
            · simp [show a.toNat < c.toNat from by omega]
        · by_cases hba : b.toNat < a.toNat
          · simp [hab, hba] at h1
          · by_cases hbc : b.toNat < c.toNat
            · simp [show a.toNat < c.toNat from by omega]
            · by_cases hcb : c.toNat < b.toNat
              · simp [hbc, hcb] at h2
              · have hac : ¬a.toNat < c.toNat := by omega
                have hca : ¬c.toNat < a.toNat := by omega
                simp [hab, hba] at h1
                simp [hbc, hcb] at h2
                simp [hac, hca]
                exact ih bs2 cs2 h1 h2

lemma strCmpLe_antisymm : ∀ as bs : List Char, strCmpLe as bs = true →
    strCmpLe bs as = true → as = bs := by
  intro as
  induction as with
  | nil => intro bs _ h2; cases bs with
    | nil => rfl
    | cons b bs2 => simp [strCmpLe] at h2
  | cons a as2 ih =>
    intro bs h1 h2
    cases bs with
    | nil => simp [strCmpLe] at h1
    | cons b bs2 =>
      simp only [strCmpLe] at h1 h2
      by_cases hab : a.toNat < b.toNat
      · simp [show ¬b.toNat < a.toNat from by omega, hab] at h2
      · by_cases hba : b.toNat < a.toNat
        · simp [hab, hba] at h1
        · simp [hab, hba] at h1
          simp [show ¬b.toNat < a.toNat from hba, show ¬a.toNat < b.toNat from hab] at h2
          have heq : a.toNat = b.toNat := by omega
          have hc : a = b := Char.eq_of_val_eq (UInt32.ext heq)
          rw [hc, ih bs2 h1 h2]

lemma strLe_antisymm (a b : String) (h1 : strLe a b = true) (h2 : strLe b a = true) :
    a = b := by
  cases a with
  | mk da =>
    cases b with
    | mk db =>
      have := strCmpLe_antisymm da db h1 h2
      rw [this]

instance : IsTotal (String × Json) keyLe :=
  ⟨fun a b => strCmpLe_total a.1.data b.1.data⟩

instance : IsTrans (String × Json) keyLe :=
  ⟨fun a b c hab hbc => strCmpLe_trans a.1.data b.1.data c.1.data hab hbc⟩

lemma canonFields_eq_map (l : List (String × Json)) :
    canonFields l = l.map (fun e => (e.1, e.2.canon)) := by
  induction l with
  | nil => rfl
  | cons e es ih => simp [canonFields, ih]

lemma wfFields_mem : ∀ (l : List (String × Json)), wfFields l = true →
    ∀ e ∈ l, e.2.wf = true := by
  intro l
  induction l with
  | nil => intro _ e he; simp at he
  | cons x xs ih =>
    intro hw e he
    simp only [wfFields, Bool.and_eq_true] at hw
    rcases List.mem_cons.mp he with he | he
    · rw [he]; exact hw.1
    · exact ih hw.2 e he

lemma wfList_mem : ∀ (l : List Json), wfList l = true → ∀ x ∈ l, x.wf = true := by
  intro l
  induction l with
  | nil => intro _ x hx; simp at hx
  | cons y ys ih =>
    intro hw x hx
    simp only [wfList, Bool.and_eq_true] at hw
    rcases List.mem_cons.mp hx with hx | hx
    · rw [hx]; exact hw.1
    · exact ih hw.2 x hx

lemma sorted_perm_nodup_eq : ∀ (l1 l2 : List (String × Json)),
    l1.Perm l2 → l1.Sorted keyLe → l2.Sorted keyLe →
    (l1.map Prod.fst).Nodup → l1 = l2 := by
  intro l1
  induction l1 with
  | nil =>
    intro l2 hp _ _ _
    exact (hp.symm.eq_nil).symm
  | cons x t1 ih =>
    intro l2 hp hs1 hs2 hnd
    cases l2 with
    | nil => cases hp.eq_nil
    | cons y t2 =>
      by_cases hxy : x = y
      · subst hxy
        rw [ih t2 hp.cons_inv hs1.of_cons hs2.of_cons (by
          simpa using hnd.of_cons)]
      · exfalso
        have hx2 : x ∈ y :: t2 := hp.subset (List.mem_cons_self x t1)
        have hy1 : y ∈ x :: t1 := hp.symm.subset (List.mem_cons_self y t2)
        have hx2b : x ∈ t2 := by
          rcases List.mem_cons.mp hx2 with h | h
          · exact absurd h hxy
          · exact h
        have hy1b : y ∈ t1 := by
          rcases List.mem_cons.mp hy1 with h | h
          · exact absurd h.symm hxy
          · exact h
        have h1 : keyLe x y := List.rel_of_sorted_cons hs1 y hy1b
        have h2 : keyLe y x := List.rel_of_sorted_cons hs2 x hx2b
        have hk : x.1 = y.1 := strLe_antisymm _ _ h1 h2
        have hmem : x.1 ∈ t1.map Prod.fst := by
          rw [hk]
          exact List.mem_map_of_mem Prod.fst hy1b
        exact (List.nodup_cons.mp hnd).1 hmem


lemma wf_obj_parts (fs : List (String × Json)) (h : (Json.obj fs).wf = true) :
    (fs.map Prod.fst).Nodup ∧ wfFields fs = true := by
  simp only [Json.wf, Bool.and_eq_true, decide_eq_true_eq] at h
  exact h

theorem canon_keyPerm (j1 j2 : Json) (hwf : j1.wf = true) (hp : KeyPerm j1 j2) :
    j1.canon = j2.canon := by
  have main : ∀ (n : Nat) (a b : Json), sizeOf a ≤ n → a.wf = true → KeyPerm a b →
      a.canon = b.canon := by
    intro n
    induction n with
    | zero =>
      intro a b hsz _ _
      exfalso
      cases a <;> simp at hsz
    | succ n ih =>
      intro a b hsz hwf hp
      cases hp with
      | null => rfl
      | bool _ => rfl
      | num _ => rfl
      | str _ => rfl
      | arr xs ys hl =>
        simp only [Json.canon]
        congr 1
        have hszl : ∀ x ∈ xs, sizeOf x ≤ n := by
          intro x hx
          have h1 := List.sizeOf_lt_of_mem hx
          simp only [Json.arr.sizeOf_spec] at hsz
          omega
        have hwl : wfList xs = true := by simpa [Json.wf] using hwf
        clear hsz hwf
        have harr : ∀ (as bs : List Json), (∀ x ∈ as, sizeOf x ≤ n) →
            wfList as = true → KeyPermList as bs → canonList as = canonList bs := by
          intro as
          induction as with
          | nil =>
            intro bs _ _ hlp
            cases hlp
            rfl
          | cons x as2 ihx =>
            intro bs hsza hwa hlp
            cases hlp with
            | cons _ y _ bs2 hxy hrest =>
              simp only [canonList]
              congr 1
              · exact ih x y (hsza x (List.mem_cons_self _ _))
                  (wfList_mem _ hwa x (List.mem_cons_self _ _)) hxy
              · exact ihx bs2 (fun z hz => hsza z (List.mem_cons_of_mem _ hz))
                  (by simp only [wfList, Bool.and_eq_true] at hwa; exact hwa.2) hrest
        exact harr xs ys hszl hwl hl
      | obj fs gs hs hperm hfields =>
        simp only [Json.canon]
        congr 1
        have hparts := wf_obj_parts fs hwf
        have hmemg : ∀ e ∈ gs, e.2.wf = true ∧ sizeOf e.2 ≤ n := by
          intro e he
          have hef : e ∈ fs := (hperm.mem_iff).mpr he
          refine ⟨wfFields_mem fs hparts.2 e hef, ?_⟩
          have h1 := List.sizeOf_lt_of_mem hef
          rcases e with ⟨k, v⟩
          simp only [Json.obj.sizeOf_spec] at hsz
          simp only [Prod.mk.sizeOf_spec] at h1
          simp only
          omega
        have hflds : ∀ (as bs : List (String × Json)),
            (∀ e ∈ as, e.2.wf = true ∧ sizeOf e.2 ≤ n) → KeyPermFields as bs →
            canonFields as = canonFields bs := by
          intro as
          induction as with
          | nil =>
            intro bs _ hfp
            cases hfp
            rfl
          | cons e as2 ihe =>
            intro bs hmema hfp
            cases hfp with
            | cons k v w _ bs2 hvw hrest =>
              have hv := hmema (k, v) (List.mem_cons_self _ _)
              simp only [canonFields]
              congr 1
              · have hc : v.canon = w.canon := ih v w hv.2 hv.1 hvw
                rw [hc]
              · exact ihe bs2 (fun e2 he2 => hmema e2 (List.mem_cons_of_mem _ he2)) hrest
        have h1 : canonFields gs = canonFields hs := hflds gs hs hmemg hfields
        have h2 : (canonFields fs).Perm (canonFields hs) := by
          rw [canonFields_eq_map, ← h1, canonFields_eq_map]
          exact hperm.map _
        have hnod2 : ((canonFields fs).map Prod.fst).Nodup := by
          rw [canonFields_eq_map]
          have hmm : (fs.map (fun e => (e.1, e.2.canon))).map Prod.fst = fs.map Prod.fst := by
            rw [List.map_map]
            rfl
          rw [hmm]
          exact hparts.1
        have hps1 : (List.insertionSort keyLe (canonFields fs)).Sorted keyLe :=
          List.sorted_insertionSort keyLe _
        have hps2 : (List.insertionSort keyLe (canonFields hs)).Sorted keyLe :=
          List.sorted_insertionSort keyLe _
        have hp2 : (List.insertionSort keyLe (canonFields fs)).Perm
            (List.insertionSort keyLe (canonFields hs)) :=
          ((List.perm_insertionSort keyLe _).trans h2).trans
            (List.perm_insertionSort keyLe _).symm
        have hnod3 : ((List.insertionSort keyLe (canonFields fs)).map Prod.fst).Nodup :=
          (((List.perm_insertionSort keyLe (canonFields fs)).map Prod.fst).symm).nodup hnod2
        exact sorted_perm_nodup_eq _ _ hp2 hps1 hps2 hnod3
  exact main (sizeOf j1) j1 j2 le_rfl hwf hp


lemma keyPerm_refl (j : Json) : KeyPerm j j := by
  have main : ∀ (n : Nat) (a : Json), sizeOf a ≤ n → KeyPerm a a := by
    intro n
    induction n with
    | zero =>
      intro a hsz
      exfalso
      cases a <;> simp at hsz
    | succ n ih =>
      intro a hsz
      cases a with
      | null => exact .null
      | bool b => exact .bool b
      | num m => exact .num m
      | str s => exact .str s
      | arr xs =>
        refine .arr xs xs ?_
        have hszl : ∀ x ∈ xs, sizeOf x ≤ n := by
          intro x hx
          have h1 := List.sizeOf_lt_of_mem hx
          simp only [Json.arr.sizeOf_spec] at hsz
          omega
        clear hsz
        induction xs with
        | nil => exact .nil
        | cons x xs2 ihx =>
          exact .cons x x xs2 xs2 (ih x (hszl x (List.mem_cons_self _ _)))
            (ihx (fun z hz => hszl z (List.mem_cons_of_mem _ hz)))
      | obj fs =>
        refine .obj fs fs fs (List.Perm.refl fs) ?_
        have hszl : ∀ e ∈ fs, sizeOf e.2 ≤ n := by
          intro e he
          have h1 := List.sizeOf_lt_of_mem he
          rcases e with ⟨k, v⟩
          simp only [Json.obj.sizeOf_spec] at hsz
          simp only [Prod.mk.sizeOf_spec] at h1
          simp only
          omega
        clear hsz
        induction fs with
        | nil => exact .nil
        | cons e es ihe =>
          rcases e with ⟨k, v⟩
          exact .cons k v v es es (ih v (hszl (k, v) (List.mem_cons_self _ _)))
            (ihe (fun z hz => hszl z (List.mem_cons_of_mem _ hz)))
  exact main (sizeOf j) j le_rfl

/-- C9: a queued item is removable by any structurally-equal value, whatever
key order was used at any nesting level when it was enqueued — both sides are
serialized with canonically sorted keys, so `LREM` matches by exact string —
and removing a value whose canonical serialization matches nothing in the
queue fails with `QueueItemNotFound`. -/
theorem C9_queue_structural_removal (st : RedisState) (q : String) (item item2 : Json)
    (hwf : item.wf = true) (hperm : KeyPerm item item2) :
    (removeFromQueue (enqueue st q item) q item2).2 = .ok () ∧
    (∀ (st2 : RedisState) (item3 : Json),
      (∀ s ∈ listItems st2 (toQueueName q), ¬s = jsonStableStringify item3) →
      (removeFromQueue st2 q item3).2 = .error .QueueItemNotFound) := by
  constructor
  · have hser : jsonStableStringify item = jsonStableStringify item2 := by
      unfold jsonStableStringify
      rw [canon_keyPerm item item2 hwf hperm]
    simp [removeFromQueue, enqueue, listRem, listPush, hser, List.filter_append]
  · intro st2 item3 hnone
    have hfil : (st2.lists (toQueueName q)).filter
        (fun x => x = jsonStableStringify item3) = [] := by
      rw [List.filter_eq_nil_iff]
      intro a ha
      simpa using hnone a ha
    simp [removeFromQueue, listRem, hfil]

/-- C9 witness: scenario 5 of the spec — enqueue `{a:1, b:{c:2, d:[3,4]}}`,
remove with the keys reordered at every nesting level. -/
theorem C9_queue_structural_removal_witness :
    exQItem.wf = true ∧
    KeyPerm exQItem exQItemReordered ∧
    ((removeFromQueue (enqueue emptyState "quickPairings" exQItem) "quickPairings"
        exQItemReordered).2 = .ok () ∧
    (∀ (st2 : RedisState) (item3 : Json),
      (∀ s ∈ listItems st2 (toQueueName "quickPairings"), ¬s = jsonStableStringify item3) →
      (removeFromQueue st2 "quickPairings" item3).2 = .error .QueueItemNotFound)) := by
  have hperm : KeyPerm exQItem exQItemReordered := by
    refine KeyPerm.obj _ _ _ (List.Perm.swap _ _ []) ?_
    refine KeyPermFields.cons "b" _ _ _ _ ?_ ?_
    · refine KeyPerm.obj _ _ _ (List.Perm.swap _ _ []) ?_
      exact KeyPermFields.cons "d" _ _ _ _ (keyPerm_refl _)
        (KeyPermFields.cons "c" _ _ _ _ (keyPerm_refl _) .nil)
    · exact KeyPermFields.cons "a" _ _ _ _ (keyPerm_refl _) .nil
  exact ⟨by decide, hperm,
    C9_queue_structural_removal emptyState "quickPairings" exQItem exQItemReordered
      (by decide) hperm⟩


/-! ## Object-update lemmas for the index-consistency invariant (C3) -/

lemma find?_jsSet_self (o : JsObj) (k : String) (v : Json) :
    (jsSet o k v).find? (fun e => e.1 = k) = some (k, v) := by
  induction o with
  | nil => simp [jsSet]
  | cons e rest ih =>
    by_cases h : e.1 = k
    · simp [jsSet, h]
    · simp [jsSet, h, List.find?, ih]

lemma find?_jsSet_ne (o : JsObj) (k g : String) (v : Json) (h : ¬g = k) :
    (jsSet o k v).find? (fun e => e.1 = g) = o.find? (fun e => e.1 = g) := by
  have hfg : ¬(k = g) := fun x => h x.symm
  induction o with
  | nil => simp [jsSet, hfg]
  | cons e rest ih =>
    by_cases he : e.1 = k
    · subst he
      simp [jsSet, List.find?, hfg]
    · simp only [jsSet, if_neg he, List.find?]
      by_cases hg : e.1 = g
      · simp [hg]
      · simp [hg, ih]

lemma jsGet_jsSet_self (o : JsObj) (k : String) (v : Json) :
    jsGet (jsSet o k v) k = some v := by
  unfold jsGet
  rw [find?_jsSet_self]

lemma jsGet_jsSet_ne (o : JsObj) (k g : String) (v : Json) (h : ¬g = k) :
    jsGet (jsSet o k v) g = jsGet o g := by
  unfold jsGet
  rw [find?_jsSet_ne _ _ _ _ h]

lemma jsGet_eq_none (o : JsObj) (k : String) (h : ∀ e ∈ o, ¬e.1 = k) :
    jsGet o k = none := by
  have hf : o.find? (fun e => e.1 = k) = none := by
    rw [List.find?_eq_none]
    intro x hx
    simp [h x hx]
  simp [jsGet, hf]

lemma jsGet_none_forall (o : JsObj) (k : String) (h : jsGet o k = none) :
    ∀ e ∈ o, ¬e.1 = k := by
  intro e he hk
  unfold jsGet at h
  cases hf : o.find? (fun e => e.1 = k) with
  | some x => rw [hf] at h; exact absurd h (by simp)
  | none =>
    rw [List.find?_eq_none] at hf
    exact hf e he (by simp [hk])

lemma jsSet_cons_ne (e : String × Json) (o : JsObj) (k : String) (v : Json)
    (h : ¬e.1 = k) : jsSet (e :: o) k v = e :: jsSet o k v := by
  simp [jsSet, h]

lemma jsSet_fresh : ∀ (o : JsObj) (k : String) (v : Json),
    (∀ e ∈ o, ¬e.1 = k) → jsSet o k v = o ++ [(k, v)] := by
  intro o
  induction o with
  | nil => intro k v _; rfl
  | cons e rest ih =>
    intro k v h
    rw [jsSet_cons_ne e rest k v (h e (List.mem_cons_self _ _)),
      ih k v (fun x hx => h x (List.mem_cons_of_mem _ hx))]
    rfl

lemma jsGet_delKey (p : JsObj) (k f : String) :
    jsGet (jsDelKey p k) f = if f = k then none else jsGet p f := by
  induction p with
  | nil =>
    by_cases h : f = k <;> simp [jsDelKey, jsGet, h]
  | cons e rest ih =>
    by_cases he : e.1 = k
    · have hdel : jsDelKey (e :: rest) k = jsDelKey rest k := by
        simp [jsDelKey, he]
      rw [hdel, ih]
      by_cases h : f = k
      · simp [h]
      · have hef : ¬e.1 = f := fun hh => h (hh.symm.trans he)
        simp [h, jsGet, List.find?, hef]
    · have hdel : jsDelKey (e :: rest) k = e :: jsDelKey rest k := by
        simp [jsDelKey, he]
      rw [hdel]
      by_cases hf : e.1 = f
      · have hne : ¬f = k := fun hh => he (hf.trans hh)
        simp [jsGet, List.find?, hf, hne]
      · simp only [jsGet, List.find?, decide_eq_false hf]
        simp only [jsGet] at ih
        exact ih

lemma jsGet_jsSpread_none : ∀ (b a : JsObj) (k : String), jsGet b k = none →
    jsGet (jsSpread a b) k = jsGet a k := by
  intro b
  induction b with
  | nil => intro a k _; rfl
  | cons e rest ih =>
    intro a k h
    have hfa := jsGet_none_forall _ _ h
    have he : ¬e.1 = k := hfa e (List.mem_cons_self _ _)
    have hrest : jsGet rest k = none :=
      jsGet_eq_none _ _ (fun x hx => hfa x (List.mem_cons_of_mem _ hx))
    show jsGet (jsSpread (jsSet a e.1 e.2) rest) k = jsGet a k
    rw [ih _ _ hrest, jsGet_jsSet_ne _ _ _ _ (fun hh => he hh.symm)]

lemma jsGet_jsSpread_some : ∀ (b a : JsObj) (k : String) (v : Json),
    (b.map Prod.fst).Nodup → jsGet b k = some v →
    jsGet (jsSpread a b) k = some v := by
  intro b
  induction b with
  | nil => intro a k v _ h; simp [jsGet, List.find?] at h
  | cons e rest ih =>
    intro a k v hnd h
    by_cases he : e.1 = k
    · have hv : some e.2 = some v := by
        simpa [jsGet, List.find?, he] using h
      have hni : e.1 ∉ rest.map Prod.fst := (List.nodup_cons.mp hnd).1
      have hknotin : ∀ x ∈ rest, ¬x.1 = k := by
        intro x hx hk
        have hm : x.1 ∈ rest.map Prod.fst := List.mem_map_of_mem _ hx
        rw [hk, ← he] at hm
        exact hni hm
      have hrest : jsGet rest k = none := jsGet_eq_none _ _ hknotin
      show jsGet (jsSpread (jsSet a e.1 e.2) rest) k = some v
      rw [jsGet_jsSpread_none rest (jsSet a e.1 e.2) k hrest, he, jsGet_jsSet_self]
      exact hv
    · have h2 : jsGet rest k = some v := by
        simpa [jsGet, List.find?, he] using h
      show jsGet (jsSpread (jsSet a e.1 e.2) rest) k = some v
      exact ih _ _ _ (List.nodup_cons.mp hnd).2 h2

lemma foldl_jsSet_through_head {α : Type} (keyf : α → String) (wf : α → Json)
    (e : String × Json) :
    ∀ (ups : List α) (base : JsObj),
    (∀ u ∈ ups, ¬keyf u = e.1) →
    ups.foldl (fun acc u => jsSet acc (keyf u) (wf u)) (e :: base) =
      e :: ups.foldl (fun acc u => jsSet acc (keyf u) (wf u)) base := by
  intro ups
  induction ups with
  | nil => intro base _; rfl
  | cons u rest ih =>
    intro base h
    simp only [List.foldl]
    rw [jsSet_cons_ne e base (keyf u) (wf u) (fun hh => h u (List.mem_cons_self _ _) hh.symm)]
    exact ih _ (fun x hx => h x (List.mem_cons_of_mem _ hx))

lemma foldl_jsSet_fresh_map (g : String → String) (wv : String → Json) :
    ∀ (l : List String) (acc : JsObj),
    l.Pairwise (fun a b => ¬g a = g b) →
    (∀ f ∈ l, ∀ e ∈ acc, ¬e.1 = g f) →
    l.foldl (fun a f => jsSet a (g f) (wv f)) acc = acc ++ l.map (fun f => (g f, wv f)) := by
  intro l
  induction l with
  | nil => intro acc _ _; simp
  | cons f0 rest ih =>
    intro acc hpw hfresh
    have hpw' := List.pairwise_cons.mp hpw
    simp only [List.foldl, List.map_cons]
    rw [jsSet_fresh acc (g f0) (wv f0) (fun e he => hfresh f0 (List.mem_cons_self _ _) e he)]
    rw [ih (acc ++ [(g f0, wv f0)]) hpw'.2 ?fresh]
    · simp
    case fresh =>
      intro f hf e he
      rcases List.mem_append.mp he with h | h
      · exact hfresh f (List.mem_cons_of_mem _ hf) e h
      · have he' := List.mem_singleton.mp h
        rw [he']
        exact fun hh => hpw'.1 f hf hh

lemma foldl_jsSet_filter_map (g : String → String) (w w2 : String → Json)
    (S : String → Bool) :
    ∀ (l : List String), l.Nodup →
    (∀ a ∈ l, ∀ b ∈ l, g a = g b → a = b) →
    (l.filter S).foldl (fun acc f => jsSet acc (g f) (w2 f))
        (l.map (fun f => (g f, w f)))
      = l.map (fun f => (g f, if S f then w2 f else w f)) := by
  intro l
  induction l with
  | nil => intro _ _; rfl
  | cons f0 rest ih =>
    intro hnd hinj
    have hnd' := List.nodup_cons.mp hnd
    have hinj' : ∀ a ∈ rest, ∀ b ∈ rest, g a = g b → a = b := fun a ha b hb =>
      hinj a (List.mem_cons_of_mem _ ha) b (List.mem_cons_of_mem _ hb)
    have hne : ∀ u ∈ rest.filter S, ¬g u = g f0 := by
      intro u hu hg
      have hur : u ∈ rest := List.mem_of_mem_filter hu
      have : u = f0 :=
        hinj u (List.mem_cons_of_mem _ hur) f0 (List.mem_cons_self _ _) hg
      exact hnd'.1 (this ▸ hur)
    by_cases hS : S f0
    · simp only [List.filter_cons, hS, if_true, List.map_cons, List.foldl_cons]
      have hh : jsSet ((g f0, w f0) :: rest.map (fun f => (g f, w f))) (g f0) (w2 f0)
          = (g f0, w2 f0) :: rest.map (fun f => (g f, w f)) := by
        simp [jsSet]
      rw [hh, foldl_jsSet_through_head g w2 _ _ _ hne, ih hnd'.2 hinj']
    · have hSf : S f0 = false := by
        cases h : S f0
        · rfl
        · exact absurd h hS
      simp only [List.filter_cons, hSf, Bool.false_eq_true, if_false, List.map_cons]
      rw [foldl_jsSet_through_head g w2 _ _ _ hne, ih hnd'.2 hinj']

lemma pairwise_key_ne (g : String → String) :
    ∀ (l : List String), l.Nodup →
    (∀ a ∈ l, ∀ b ∈ l, g a = g b → a = b) →
    l.Pairwise (fun a b => ¬g a = g b) := by
  intro l
  induction l with
  | nil => intro _ _; exact List.Pairwise.nil
  | cons x rest ih =>
    intro hnd hinj
    have hnd' := List.nodup_cons.mp hnd
    refine List.Pairwise.cons ?_ (ih hnd'.2 (fun a ha b hb =>
      hinj a (List.mem_cons_of_mem _ ha) b (List.mem_cons_of_mem _ hb)))
    intro b hb hg
    have hxb : x = b :=
      hinj x (List.mem_cons_self _ _) b (List.mem_cons_of_mem _ hb) hg
    exact hnd'.1 (hxb ▸ hb)

/-! ## Hash-level fold lemmas for the index writes -/

lemma hashFields_foldl_hashSet_ne {β : Type} (keyf ff : β → String)
    (vf : β → StoredVal) :
    ∀ (l : List β) (st : RedisState) (k : String),
    (∀ b ∈ l, ¬keyf b = k) →
    hashFields (l.foldl (fun s b => hashSet s (keyf b) (ff b) (vf b)) st) k
      = hashFields st k := by
  intro l
  induction l with
  | nil => intro st k _; rfl
  | cons b rest ih =>
    intro st k h
    simp only [List.foldl]
    rw [ih _ _ (fun x hx => h x (List.mem_cons_of_mem _ hx)),
      hashFields_hashSet_ne _ _ _ _ _ (fun hk => h b (List.mem_cons_self _ _) hk.symm)]

lemma hashFields_foldl_hashSet_self {β : Type} (keyf ff : β → String)
    (vf : β → StoredVal) :
    ∀ (l : List β) (st : RedisState) (b0 : β), b0 ∈ l →
    l.Pairwise (fun a b => ¬keyf a = keyf b) →
    hashFields (l.foldl (fun s b => hashSet s (keyf b) (ff b) (vf b)) st) (keyf b0)
      = fieldsSet (hashFields st (keyf b0)) (ff b0) (vf b0) := by
  intro l
  induction l with
  | nil => intro st b0 h _; exact absurd h (List.not_mem_nil _)
  | cons b rest ih =>
    intro st b0 hmem hpw
    have hpw' := List.pairwise_cons.mp hpw
    simp only [List.foldl]
    rcases List.mem_cons.mp hmem with heq | hmem2
    · subst heq
      rw [hashFields_foldl_hashSet_ne keyf ff vf rest _ _
        (fun x hx hk => hpw'.1 x hx hk.symm)]
      exact hashFields_hashSet_self st (keyf b0) (ff b0) (vf b0)
    · rw [ih _ b0 hmem2 hpw'.2,
        hashFields_hashSet_ne _ _ _ _ _ (fun hk => hpw'.1 b0 hmem2 hk.symm)]

lemma hashFields_foldl_setdel_ne (id : String) :
    ∀ (l : List ChangedIdx) (st : RedisState) (k : String),
    (∀ r ∈ l, ¬r.indexedInCollection = k) →
    hashFields (l.foldl (fun s r =>
        hashDel (hashSet s r.indexedInCollection (idxFieldStr r.nextValue) (.raw id))
          r.indexedInCollection (jsKeyStr r.prevValue)) st) k
      = hashFields st k := by
  intro l
  induction l with
  | nil => intro st k _; rfl
  | cons r rest ih =>
    intro st k h
    have hr : ¬r.indexedInCollection = k := h r (List.mem_cons_self _ _)
    simp only [List.foldl]
    rw [ih _ _ (fun x hx => h x (List.mem_cons_of_mem _ hx)),
      hashFields_hashDel_ne _ _ _ _ (fun hk => hr hk.symm),
      hashFields_hashSet_ne _ _ _ _ _ (fun hk => hr hk.symm)]

lemma hashFields_foldl_setdel_self (id : String) :
    ∀ (l : List ChangedIdx) (st : RedisState) (r0 : ChangedIdx), r0 ∈ l →
    l.Pairwise (fun a b => ¬a.indexedInCollection = b.indexedInCollection) →
    hashFields (l.foldl (fun s r =>
        hashDel (hashSet s r.indexedInCollection (idxFieldStr r.nextValue) (.raw id))
          r.indexedInCollection (jsKeyStr r.prevValue)) st) r0.indexedInCollection
      = (fieldsSet (hashFields st r0.indexedInCollection) (idxFieldStr r0.nextValue)
          (.raw id)).filter (fun p => ¬p.1 = jsKeyStr r0.prevValue) := by
  intro l
  induction l with
  | nil => intro st r0 h _; exact absurd h (List.not_mem_nil _)
  | cons r rest ih =>
    intro st r0 hmem hpw
    have hpw' := List.pairwise_cons.mp hpw
    simp only [List.foldl]
    rcases List.mem_cons.mp hmem with heq | hmem2
    · subst heq
      rw [hashFields_foldl_setdel_ne id rest _ _ (fun x hx hk => hpw'.1 x hx hk.symm),
        hashFields_hashDel_self, hashFields_hashSet_self]
    · rw [ih _ r0 hmem2 hpw'.2,
        hashFields_hashDel_ne _ _ _ _ (fun hk => hpw'.1 r0 hmem2 hk.symm),
        hashFields_hashSet_ne _ _ _ _ _ (fun hk => hpw'.1 r0 hmem2 hk.symm)]

lemma hashFields_foldl_del_ne :
    ∀ (l : List (String × String)) (st : RedisState) (k : String),
    (∀ e ∈ l, ¬e.1 = k) →
    hashFields (l.foldl (fun s e => hashDel s e.1 e.2) st) k = hashFields st k := by
  intro l
  induction l with
  | nil => intro st k _; rfl
  | cons e rest ih =>
    intro st k h
    simp only [List.foldl]
    rw [ih _ _ (fun x hx => h x (List.mem_cons_of_mem _ hx)),
      hashFields_hashDel_ne _ _ _ _ (fun hk => h e (List.mem_cons_self _ _) hk.symm)]

lemma hashFields_foldl_del_self :
    ∀ (l : List (String × String)) (st : RedisState) (e0 : String × String), e0 ∈ l →
    l.Pairwise (fun a b => ¬a.1 = b.1) →
    hashFields (l.foldl (fun s e => hashDel s e.1 e.2) st) e0.1
      = (hashFields st e0.1).filter (fun p => ¬p.1 = e0.2) := by
  intro l
  induction l with
  | nil => intro st e0 h _; exact absurd h (List.not_mem_nil _)
  | cons e rest ih =>
    intro st e0 hmem hpw
    have hpw' := List.pairwise_cons.mp hpw
    simp only [List.foldl]
    rcases List.mem_cons.mp hmem with heq | hmem2
    · subst heq
      rw [hashFields_foldl_del_ne rest _ _ (fun x hx hk => hpw'.1 x hx hk.symm),
        hashFields_hashDel_self]
    · rw [ih _ e0 hmem2 hpw'.2,
        hashFields_hashDel_ne _ _ _ _ (fun hk => hpw'.1 e0 hmem2 hk.symm)]

lemma hashGet_congr_fields (st st2 : RedisState) (k f : String)
    (h : hashFields st k = hashFields st2 k) : hashGet st k f = hashGet st2 k f := by
  unfold hashGet
  rw [h]

lemma hashGet_hashDel_self_field (st : RedisState) (k f : String) :
    hashGet (hashDel st k f) k f = none := by
  unfold hashGet
  rw [hashFields_hashDel_self]
  have hf : ((hashFields st k).filter (fun p => ¬p.1 = f)).find?
      (fun e => e.1 = f) = none := by
    rw [List.find?_eq_none]
    intro x hx
    have := (List.mem_filter.mp hx).2
    simp only [decide_not, Bool.not_eq_true', decide_eq_false_iff_not] at this
    simp [this]
  rw [hf]

lemma hashGet_of_fields_singleton (st : RedisState) (k s : String) (sv : StoredVal)
    (h : hashFields st k = [(s, sv)]) (q : String) :
    hashGet st k q = if q = s then some sv else none := by
  unfold hashGet
  rw [h]
  by_cases hq : q = s
  · simp [List.find?, hq]
  · rw [if_neg hq]
    have hsq : decide (s = q) = false := decide_eq_false (fun hh => hq hh.symm)
    simp [List.find?, hsq]

lemma hashGet_of_fields_nil (st : RedisState) (k : String)
    (h : hashFields st k = []) (q : String) : hashGet st k q = none := by
  unfold hashGet
  rw [h]
  rfl

/-! ## Read-path lemmas for a stored record without foreign keys -/

lemma getShallow_present (st : RedisState) (c i : String) (m : ItemMetadata)
    (h : hashGet st c i = some (.meta m)) :
    getShallowItems st c [i] = (some (.ok [m]), [.trip]) := by
  simp [getShallowItems, toCollectionId, h]

lemma getShallow_absent (st : RedisState) (c i : String)
    (h : hashGet st c i = none) :
    getShallowItems st c [i] = (some (.error .CollectionFieldInexistent), [.trip]) := by
  simp [getShallowItems, toCollectionId, h]

lemma resolve_no_fk (st : RedisState) (fl : Nat) (m : ItemMetadata)
    (hfk : m.foreignKeys = []) :
    resolveForeignItems st (fl+1) [m] = (some (.ok [RMeta.mk m.val m.id [] []]), 0) := by
  have hc : compactAllForeignKeys [m] = [] := by
    simp [compactAllForeignKeys, deepmergeIds, itemValuesMap, hfk]
  simp [resolveForeignItems, hc]

lemma toItem_no_sub (val : JsObj) (id : String) :
    toItem (.mk val id [] []) = some (jsSet val "id" (.str id)) := by
  simp [toItem, toO2M, toO2O, jsSpread]

lemma getItem_no_fk (st : RedisState) (fl : Nat) (c i : String) (m : ItemMetadata)
    (hm : hashGet st c i = some (.meta m)) (hfk : m.foreignKeys = []) :
    (getItemInCollection st (fl+1) c i).1 = some (.ok (jsSet m.val "id" (.str m.id))) := by
  have h1 := getShallow_present st c i m hm
  have h2 := resolve_no_fk st fl m hfk
  simp [getItemInCollection, getItemsInCollection, getItemsWithMetadata, h1, h2,
    mapToItems, toItem_no_sub]

lemma getItem_absent (st : RedisState) (fl : Nat) (c i : String)
    (hm : hashGet st c i = none) :
    (getItemInCollection st fl c i).1 = some (.error .CollectionFieldInexistent) := by
  have h1 := getShallow_absent st c i hm
  simp [getItemInCollection, getItemsInCollection, getItemsWithMetadata, h1]

lemma getBy_of_idx (st : RedisState) (fl : Nat) (c f : String) (v : Json) (rid : String)
    (h : hashGet st (toIndexedCollectionName c f) (jsKeyStr v) = some (.raw rid)) :
    (getItemInCollectionBy st fl c f v).1 = (getItemInCollection st fl c rid).1 := by
  simp [getItemInCollectionBy, h]

lemma getBy_of_none (st : RedisState) (fl : Nat) (c f : String) (v : Json)
    (h : hashGet st (toIndexedCollectionName c f) (jsKeyStr v) = none) :
    (getItemInCollectionBy st fl c f v).1
      = some (.error .CollectionFieldInexistent) := by
  simp [getItemInCollectionBy, h]

/-! ## The update/removal folds over a string-valued `indexedIn` map -/

lemma changed_fold_aux (c : String) (next : JsObj) (strOf nxt : String → String) :
    ∀ (l : List String) (acc : List ChangedIdx),
    (∀ f ∈ l, getByFieldNameFromIndexedCollection (toIndexedCollectionName c f) = some f) →
    (∀ f ∈ l, jsGet next f = some (.str (nxt f))) →
    (l.map (fun f => (toIndexedCollectionName c f, Json.str (strOf f)))).foldl
      (fun acc e =>
        let byField := getByFieldNameFromIndexedCollection e.1
        let nextV := match byField with
                     | some f => jsGet next f
                     | none => none
        let same := match nextV with
                    | some v => jsStrictEq e.2 v
                    | none => false
        if same then acc
        else acc ++ [{ indexedInCollection := e.1, prevValue := e.2, nextValue := nextV }]) acc
      = acc ++ (l.filter (fun f => ¬strOf f = nxt f)).map
          (fun f => { indexedInCollection := toIndexedCollectionName c f,
                      prevValue := Json.str (strOf f),
                      nextValue := some (Json.str (nxt f)) }) := by
  intro l
  induction l with
  | nil => intro acc _ _; simp
  | cons f0 rest ih =>
    intro acc hby hnext
    have hb := hby f0 (List.mem_cons_self _ _)
    have hn := hnext f0 (List.mem_cons_self _ _)
    have hbr : ∀ f ∈ rest,
        getByFieldNameFromIndexedCollection (toIndexedCollectionName c f) = some f :=
      fun x hx => hby x (List.mem_cons_of_mem _ hx)
    have hnr : ∀ f ∈ rest, jsGet next f = some (.str (nxt f)) :=
      fun x hx => hnext x (List.mem_cons_of_mem _ hx)
    rw [List.map_cons, List.foldl_cons]
    conv_lhs =>
      arg 2
      simp only [hb, hn, jsStrictEq, decide_eq_true_eq]
    by_cases h : strOf f0 = nxt f0
    · rw [if_pos h, ih acc hbr hnr]
      simp [List.filter_cons, h]
    · rw [if_neg h, ih _ hbr hnr]
      simp [List.filter_cons, h, List.append_assoc]

lemma getIndexedInValueRecords_eq (m : ItemMetadata) (next : JsObj) (c : String)
    (l : List String) (strOf nxt : String → String)
    (him : m.indexedIn = l.map (fun f => (toIndexedCollectionName c f, Json.str (strOf f))))
    (hby : ∀ f ∈ l, getByFieldNameFromIndexedCollection (toIndexedCollectionName c f) = some f)
    (hnext : ∀ f ∈ l, jsGet next f = some (.str (nxt f))) :
    getIndexedInValueRecords m next
      = (l.filter (fun f => ¬strOf f = nxt f)).map
          (fun f => { indexedInCollection := toIndexedCollectionName c f,
                      prevValue := Json.str (strOf f),
                      nextValue := some (Json.str (nxt f)) }) := by
  unfold getIndexedInValueRecords
  rw [him, changed_fold_aux c next strOf nxt l [] hby hnext, List.nil_append]

lemma idxzip_fold_aux (c : String) (strOf : String → String) :
    ∀ (l : List String) (acc : List (String × String)),
    (l.map (fun f => (toIndexedCollectionName c f, Json.str (strOf f)))).foldl
      (fun acc e => if jsFalsy e.2 then acc else acc ++ [(e.1, jsKeyStr e.2)]) acc
      = acc ++ (l.filter (fun f => ¬strOf f = "")).map
          (fun f => (toIndexedCollectionName c f, strOf f)) := by
  intro l
  induction l with
  | nil => intro acc; simp
  | cons f0 rest ih =>
    intro acc
    rw [List.map_cons, List.foldl_cons]
    conv_lhs =>
      arg 2
      simp only [jsFalsy, jsKeyStr, decide_eq_true_eq]
    by_cases h : strOf f0 = ""
    · rw [if_pos h, ih acc]
      simp [List.filter_cons, h]
    · rw [if_neg h, ih _]
      simp [List.filter_cons, h, List.append_assoc]

/-! ## Lookups under the C3 invariant -/

lemma C3_lookup_present (st : RedisState) (fl : Nat) (c i : String) (ixs : List String)
    (m : ItemMetadata) (strOf : String → String)
    (hp : C3Present c i ixs st m strOf) (f : String) (hf : f ∈ ixs) :
    (getItemInCollectionBy st (fl+1) c f (.str (strOf f))).1
        = some (.ok (jsSet m.val "id" (.str i))) ∧
    (∀ v : Json, ¬jsKeyStr v = strOf f →
      (getItemInCollectionBy st (fl+1) c f v).1
        = some (.error .CollectionFieldInexistent)) := by
  obtain ⟨hrec, hid, hfk, _, _, hidx⟩ := hp
  have hfld := hidx f hf
  constructor
  · have hget : hashGet st (toIndexedCollectionName c f) (jsKeyStr (.str (strOf f)))
        = some (.raw i) := by
      rw [hashGet_of_fields_singleton _ _ _ _ hfld]
      simp [jsKeyStr]
    rw [getBy_of_idx _ _ _ _ _ _ hget, getItem_no_fk _ _ _ _ _ hrec hfk, hid]
  · intro v hv
    have hget : hashGet st (toIndexedCollectionName c f) (jsKeyStr v) = none := by
      rw [hashGet_of_fields_singleton _ _ _ _ hfld]
      simp [hv]
    exact getBy_of_none _ _ _ _ _ hget

lemma C3_lookup_absent (st : RedisState) (fl : Nat) (c i : String) (ixs : List String)
    (ha : C3Absent c i ixs st) (f : String) (hf : f ∈ ixs) (v : Json) :
    (getItemInCollectionBy st fl c f v).1
      = some (.error .CollectionFieldInexistent) := by
  obtain ⟨hrec, hidx⟩ := ha
  rcases hidx f hf with h | h
  · exact getBy_of_none _ _ _ _ _ (hashGet_of_fields_nil _ _ h _)
  · by_cases hv : jsKeyStr v = ""
    · have hget : hashGet st (toIndexedCollectionName c f) (jsKeyStr v)
          = some (.raw i) := by
        rw [hashGet_of_fields_singleton _ _ _ _ h]
        simp [hv]
      rw [getBy_of_idx _ _ _ _ _ _ hget]
      exact getItem_absent _ _ _ _ hrec
    · refine getBy_of_none _ _ _ _ _ ?_
      rw [hashGet_of_fields_singleton _ _ _ _ h]
      simp [hv]

/-! ## No-op paths when the record is absent -/

lemma upd_absent_state (st : RedisState) (fuel : Nat) (c i : String) (p : JsObj)
    (hm : hashGet st c i = none) :
    (updateItem st fuel c i (fun _ => .ok p) [] false).1 = st := by
  simp [updateItem, getShallow_absent st c i hm]

lemma rem_absent_state (st : RedisState) (c i : String)
    (hm : hashGet st c i = none) :
    (removeItem st c i false).1 = st := by
  simp [removeItem, getShallow_absent st c i hm]

/-! ## The C3 invariant holds after the creating add -/

lemma C3_init (fuel : Nat) (c i : String) (v0 : JsObj) (ixs : List String)
    (hi : ¬i = "_index")
    (hnd : ixs.Nodup)
    (hinj : ∀ a ∈ ixs, ∀ b ∈ ixs,
      toIndexedCollectionName c a = toIndexedCollectionName c b → a = b)
    (hv0 : ∀ f ∈ ixs, ∃ s, jsGet v0 f = some (Json.str s)) :
    ∃ m, C3Present c i ixs (addItem emptyState fuel c v0 (some i) ixs [] false).1 m
      (fun f => jsStrOf (jsGet v0 f)) := by
  have hstate : (addItem emptyState fuel c v0 (some i) ixs [] false).1
      = ixs.foldl (fun s f => hashSet s (toIndexedCollectionName c f)
          (jsKeyStr ((jsGet v0 f).getD .null)) (StoredVal.raw i))
        (hashSet
          (hashSet emptyState c i (.meta
            { val := v0, id := i, foreignKeys := [],
              indexedIn :=
                if ixs.isEmpty then []
                else ixs.foldl
                  (fun acc f => jsSet acc (toIndexedCollectionName c f)
                    ((jsGet v0 f).getD .null)) [] }))
          c "_index"
          (.raw (toString (decOf (hashGet
            (hashSet emptyState c i (.meta
              { val := v0, id := i, foreignKeys := [],
                indexedIn :=
                  if ixs.isEmpty then []
                  else ixs.foldl
                    (fun acc f => jsSet acc (toIndexedCollectionName c f)
                      ((jsGet v0 f).getD .null)) [] }))
            c "_index") + 1)))) := rfl
  have hpair : ixs.Pairwise
      (fun a b => ¬toIndexedCollectionName c a = toIndexedCollectionName c b) :=
    pairwise_key_ne _ ixs hnd hinj
  have hfold : ixs.foldl (fun acc f => jsSet acc (toIndexedCollectionName c f)
        ((jsGet v0 f).getD .null)) []
      = ixs.map (fun f => (toIndexedCollectionName c f, (jsGet v0 f).getD .null)) := by
    have h := foldl_jsSet_fresh_map (fun f => toIndexedCollectionName c f)
      (fun f => (jsGet v0 f).getD .null) ixs [] hpair
      (fun f _ e he => absurd he (List.not_mem_nil _))
    simpa using h
  have hmapval : ixs.map (fun f => (toIndexedCollectionName c f, (jsGet v0 f).getD .null))
      = ixs.map (fun f => (toIndexedCollectionName c f,
          Json.str (jsStrOf (jsGet v0 f)))) := by
    apply List.map_congr_left
    intro f hf
    obtain ⟨s, hs⟩ := hv0 f hf
    rw [hs]
    rfl
  have hidxeq : (if ixs.isEmpty then []
        else ixs.foldl (fun acc f => jsSet acc (toIndexedCollectionName c f)
          ((jsGet v0 f).getD .null)) [])
      = ixs.map (fun f => (toIndexedCollectionName c f,
          Json.str (jsStrOf (jsGet v0 f)))) := by
    by_cases hemp : ixs = []
    · subst hemp; rfl
    · rw [if_neg (by simp [List.isEmpty_iff, hemp]), hfold, hmapval]
  refine ⟨{ val := v0, id := i, foreignKeys := [],
            indexedIn :=
              if ixs.isEmpty then []
              else ixs.foldl
                (fun acc f => jsSet acc (toIndexedCollectionName c f)
                  ((jsGet v0 f).getD .null)) [] }, ?_, rfl, rfl, hidxeq, ?_, ?_⟩
  · rw [hstate,
      hashGet_foldl_hashSet_ne ixs (fun f => toIndexedCollectionName c f)
        (fun f => jsKeyStr ((jsGet v0 f).getD .null)) (fun _ => StoredVal.raw i)
        _ c i (fun f _ => toIndexedCollectionName_ne c f),
      hashGet_hashSet_ne_field _ _ _ _ _ hi,
      hashGet_hashSet_self]
  · intro f hf
    obtain ⟨s, hs⟩ := hv0 f hf
    show jsGet v0 f = some (Json.str (jsStrOf (jsGet v0 f)))
    rw [hs]
    rfl
  · intro f hf
    obtain ⟨s, hs⟩ := hv0 f hf
    rw [hstate,
      hashFields_foldl_hashSet_self (fun f => toIndexedCollectionName c f)
        (fun f => jsKeyStr ((jsGet v0 f).getD .null)) (fun _ => StoredVal.raw i)
        ixs _ f hf hpair,
      hashFields_hashSet_ne _ _ _ _ _ (toIndexedCollectionName_ne c f),
      hashFields_hashSet_ne _ _ _ _ _ (toIndexedCollectionName_ne c f)]
    simp only [hs]
    rfl

/-! ## The C3 invariant is preserved by a string-valued update -/

lemma C3_upd_present (fuel : Nat) (c i : String) (ixs : List String) (st : RedisState)
    (m : ItemMetadata) (strOf : String → String) (p : JsObj)
    (hnd : ixs.Nodup)
    (hinj : ∀ a ∈ ixs, ∀ b ∈ ixs,
      toIndexedCollectionName c a = toIndexedCollectionName c b → a = b)
    (hby : ∀ f ∈ ixs, getByFieldNameFromIndexedCollection (toIndexedCollectionName c f) = some f)
    (hpnd : (p.map Prod.fst).Nodup)
    (hp : ∀ f ∈ ixs, ∀ w, jsGet p f = some w → ∃ s, w = Json.str s)
    (hpres : C3Present c i ixs st m strOf) :
    ∃ m2, C3Present c i ixs (updateItem st fuel c i (fun _ => .ok p) [] false).1 m2
      (fun f => jsStrOf (jsGet (jsSpread m.val (jsDelKey p "id")) f)) := by
  obtain ⟨hrec, hid, hfk, him, hval, hidx⟩ := hpres
  set NXT : String → String :=
    fun f => jsStrOf (jsGet (jsSpread m.val (jsDelKey p "id")) f) with hNXT
  have hdknd : ((jsDelKey p "id").map Prod.fst).Nodup :=
    List.Nodup.sublist (List.Sublist.map Prod.fst (List.filter_sublist p)) hpnd
  have hnxt : ∀ f ∈ ixs, ∃ s,
      jsGet (jsSpread m.val (jsDelKey p "id")) f = some (Json.str s) := by
    intro f hf
    cases hpf : jsGet (jsDelKey p "id") f with
    | none =>
      exact ⟨strOf f, by rw [jsGet_jsSpread_none _ _ _ hpf]; exact hval f hf⟩
    | some w =>
      have hw : jsGet p f = some w := by
        rw [jsGet_delKey] at hpf
        by_cases hfid : f = "id"
        · rw [if_pos hfid] at hpf; cases hpf
        · rwa [if_neg hfid] at hpf
      obtain ⟨s, rfl⟩ := hp f hf w hw
      exact ⟨s, jsGet_jsSpread_some _ _ _ _ hdknd hpf⟩
  have hnext : ∀ f ∈ ixs,
      jsGet (jsSpread m.val (jsDelKey p "id")) f = some (Json.str (NXT f)) := by
    intro f hf
    obtain ⟨s, hs⟩ := hnxt f hf
    show jsGet (jsSpread m.val (jsDelKey p "id")) f
      = some (Json.str (jsStrOf (jsGet (jsSpread m.val (jsDelKey p "id")) f)))
    rw [hs]
    rfl
  have hchanged := getIndexedInValueRecords_eq m (jsSpread m.val (jsDelKey p "id")) c ixs
    strOf NXT him hby hnext
  have hfkeq : fkMapEq [] m.foreignKeys = true := by rw [hfk]; rfl
  have hstate : (updateItem st fuel c i (fun _ => .ok p) [] false).1
      = hashSet ((getIndexedInValueRecords m (jsSpread m.val (jsDelKey p "id"))).foldl
          (fun s r => hashDel
            (hashSet s r.indexedInCollection (idxFieldStr r.nextValue) (.raw i))
            r.indexedInCollection (jsKeyStr r.prevValue)) st)
        c i (.meta { val := jsSpread m.val (jsDelKey p "id"), id := m.id,
                     foreignKeys := m.foreignKeys,
                     indexedIn :=
                       if m.indexedIn.isEmpty then []
                       else (getIndexedInValueRecords m
                           (jsSpread m.val (jsDelKey p "id"))).foldl
                         (fun acc r => jsSet acc r.indexedInCollection
                           (r.nextValue.getD .null))
                         m.indexedIn }) := by
    simp [updateItem, getShallow_present st c i m hrec, hfkeq, toCollectionId]
  have hnewidx : (if m.indexedIn.isEmpty then []
        else (getIndexedInValueRecords m (jsSpread m.val (jsDelKey p "id"))).foldl
          (fun acc r => jsSet acc r.indexedInCollection (r.nextValue.getD .null))
          m.indexedIn)
      = ixs.map (fun f => (toIndexedCollectionName c f, Json.str (NXT f))) := by
    by_cases hemp : ixs = []
    · subst hemp
      have hm0 : m.indexedIn = [] := by rw [him]; rfl
      rw [hm0]
      rfl
    · have hne : ¬m.indexedIn.isEmpty = true := by
        rw [him]
        simp [List.isEmpty_iff, hemp]
      rw [if_neg hne, hchanged, him, List.foldl_map]
      have h2 := foldl_jsSet_filter_map (fun f => toIndexedCollectionName c f)
        (fun f => Json.str (strOf f)) (fun f => Json.str (NXT f))
        (fun f => ¬strOf f = NXT f) ixs hnd hinj
      refine Eq.trans ?_ (Eq.trans h2 ?_)
      · rfl
      · apply List.map_congr_left
        intro f hf
        by_cases hQ : strOf f = NXT f
        · simp [hQ]
        · simp [hQ]
  refine ⟨{ val := jsSpread m.val (jsDelKey p "id"), id := m.id,
            foreignKeys := m.foreignKeys,
            indexedIn :=
              if m.indexedIn.isEmpty then []
              else (getIndexedInValueRecords m (jsSpread m.val (jsDelKey p "id"))).foldl
                (fun acc r => jsSet acc r.indexedInCollection (r.nextValue.getD .null))
                m.indexedIn }, ?_, hid, hfk, hnewidx, ?_, ?_⟩
  · rw [hstate, hashGet_hashSet_self]
  · intro f hf
    exact hnext f hf
  · intro f hf
    rw [hstate, hashFields_hashSet_ne _ _ _ _ _ (toIndexedCollectionName_ne c f),
      hchanged]
    have hpw : ((ixs.filter (fun f => ¬strOf f = NXT f)).map
        (fun f => ({ indexedInCollection := toIndexedCollectionName c f,
                     prevValue := Json.str (strOf f),
                     nextValue := some (Json.str (NXT f)) } : ChangedIdx))).Pairwise
        (fun a b => ¬a.indexedInCollection = b.indexedInCollection) :=
      List.pairwise_map.mpr
        ((pairwise_key_ne (fun f => toIndexedCollectionName c f) ixs hnd hinj).filter _)
    by_cases hQ : strOf f = NXT f
    · rw [hashFields_foldl_setdel_ne i _ _ _ ?hall, hidx f hf, hQ]
      case hall =>
        intro r hr
        obtain ⟨g, hg, rfl⟩ := List.mem_map.mp hr
        intro hkey
        have hgx : g ∈ ixs := List.mem_of_mem_filter hg
        have hgf : g = f := hinj g hgx f hf hkey
        have hgp := List.of_mem_filter hg
        rw [hgf] at hgp
        simp only [decide_not, Bool.not_eq_true', decide_eq_false_iff_not,
          Decidable.not_not] at hgp
        exact absurd hQ (by simpa using hgp)
    · have hmem : ({ indexedInCollection := toIndexedCollectionName c f,
                     prevValue := Json.str (strOf f),
                     nextValue := some (Json.str (NXT f)) } : ChangedIdx)
          ∈ (ixs.filter (fun f => ¬strOf f = NXT f)).map
            (fun f => ({ indexedInCollection := toIndexedCollectionName c f,
                         prevValue := Json.str (strOf f),
                         nextValue := some (Json.str (NXT f)) } : ChangedIdx)) :=
        List.mem_map_of_mem _ (List.mem_filter.mpr ⟨hf, by simp [hQ]⟩)
      have hself := hashFields_foldl_setdel_self i _ st _ hmem hpw
      rw [hself, hidx f hf]
      have hQ2 : ¬NXT f = strOf f := fun hh => hQ hh.symm
      simp [fieldsSet, idxFieldStr, jsKeyStr, hQ, hQ2]

/-! ## Removal takes the C3 invariant to the absent state -/

lemma C3_rem_present (c i : String) (ixs : List String) (st : RedisState)
    (m : ItemMetadata) (strOf : String → String)
    (hnd : ixs.Nodup)
    (hinj : ∀ a ∈ ixs, ∀ b ∈ ixs,
      toIndexedCollectionName c a = toIndexedCollectionName c b → a = b)
    (hpres : C3Present c i ixs st m strOf) :
    C3Absent c i ixs (removeItem st c i false).1 := by
  obtain ⟨hrec, hid, hfk, him, hval, hidx⟩ := hpres
  have hidxzip : m.indexedIn.foldl
      (fun acc e => if jsFalsy e.2 then acc else acc ++ [(e.1, jsKeyStr e.2)]) []
      = (ixs.filter (fun f => ¬strOf f = "")).map
          (fun f => (toIndexedCollectionName c f, strOf f)) := by
    rw [him]
    have h := idxzip_fold_aux c strOf ixs []
    simpa using h
  by_cases hz : ((ixs.filter (fun f => ¬strOf f = "")).map
      (fun f => (toIndexedCollectionName c f, strOf f))).isEmpty = true
  · have hstA : (removeItem st c i false).1 = hashDel st c i := by
      simp only [removeItem, getShallow_present st c i m hrec, toCollectionId,
        hidxzip, Bool.false_eq_true, if_false]
      rw [if_pos hz]
    have hallempty : ∀ f ∈ ixs, strOf f = "" := by
      have hmap : (ixs.filter (fun f => ¬strOf f = "")).map
          (fun f => (toIndexedCollectionName c f, strOf f)) = [] :=
        List.isEmpty_iff.mp hz
      have hfil : ixs.filter (fun f => ¬strOf f = "") = [] :=
        List.map_eq_nil_iff.mp hmap
      intro f hf
      have := List.filter_eq_nil_iff.mp hfil f hf
      simpa using this
    refine ⟨?_, ?_⟩
    · rw [hstA]
      exact hashGet_hashDel_self_field st c i
    · intro f hf
      right
      rw [hstA, hashFields_hashDel_ne _ _ _ _ (toIndexedCollectionName_ne c f),
        hidx f hf, hallempty f hf]
  · have hstB : (removeItem st c i false).1
        = ((ixs.filter (fun f => ¬strOf f = "")).map
            (fun f => (toIndexedCollectionName c f, strOf f))).foldl
          (fun s e => hashDel s e.1 e.2) (hashDel st c i) := by
      simp only [removeItem, getShallow_present st c i m hrec, toCollectionId,
        hidxzip, Bool.false_eq_true, if_false]
      rw [if_neg hz]
    have hpw : ((ixs.filter (fun f => ¬strOf f = "")).map
        (fun f => (toIndexedCollectionName c f, strOf f))).Pairwise
        (fun a b => ¬a.1 = b.1) :=
      List.pairwise_map.mpr
        ((pairwise_key_ne (fun f => toIndexedCollectionName c f) ixs hnd hinj).filter _)
    refine ⟨?_, ?_⟩
    · rw [hstB]
      have hfields : hashFields (((ixs.filter (fun f => ¬strOf f = "")).map
            (fun f => (toIndexedCollectionName c f, strOf f))).foldl
          (fun s e => hashDel s e.1 e.2) (hashDel st c i)) c
          = hashFields (hashDel st c i) c := by
        apply hashFields_foldl_del_ne
        intro e he
        obtain ⟨g, hg, rfl⟩ := List.mem_map.mp he
        exact toIndexedCollectionName_ne c g
      rw [hashGet_congr_fields _ _ _ _ hfields]
      exact hashGet_hashDel_self_field st c i
    · intro f hf
      by_cases hQ : strOf f = ""
      · right
        rw [hstB, hashFields_foldl_del_ne _ _ _ ?hall,
          hashFields_hashDel_ne _ _ _ _ (toIndexedCollectionName_ne c f),
          hidx f hf, hQ]
        case hall =>
          intro e he
          obtain ⟨g, hg, rfl⟩ := List.mem_map.mp he
          intro hkey
          have hgx : g ∈ ixs := List.mem_of_mem_filter hg
          have hgf : g = f := hinj g hgx f hf hkey
          have hgp := List.of_mem_filter hg
          rw [hgf] at hgp
          simp only [decide_not, Bool.not_eq_true', decide_eq_false_iff_not,
            Decidable.not_not] at hgp
          exact hgp hQ
      · left
        have hmem : ((toIndexedCollectionName c f, strOf f) : String × String)
            ∈ (ixs.filter (fun f => ¬strOf f = "")).map
              (fun f => (toIndexedCollectionName c f, strOf f)) :=
          List.mem_map_of_mem _ (List.mem_filter.mpr ⟨hf, by simp [hQ]⟩)
        have hself := hashFields_foldl_del_self _ (hashDel st c i) _ hmem hpw
        rw [hstB, hself,
          hashFields_hashDel_ne _ _ _ _ (toIndexedCollectionName_ne c f),
          hidx f hf]
        simp

/-! ## The invariant over a whole operation sequence -/

lemma C3_run_aux (fuel : Nat) (c i : String) (ixs : List String)
    (hnd : ixs.Nodup)
    (hinj : ∀ a ∈ ixs, ∀ b ∈ ixs,
      toIndexedCollectionName c a = toIndexedCollectionName c b → a = b)
    (hby : ∀ f ∈ ixs, getByFieldNameFromIndexedCollection (toIndexedCollectionName c f) = some f) :
    ∀ (ops : List TailOp) (st : RedisState),
    (∀ p, TailOp.upd p ∈ ops → (p.map Prod.fst).Nodup ∧
      ∀ f ∈ ixs, ∀ w, jsGet p f = some w → ∃ s, w = Json.str s) →
    (∀ m strOf, C3Present c i ixs st m strOf →
      (¬TailOp.rem ∈ ops →
        ∃ m2 strOf2, C3Present c i ixs (ops.foldl (applyTailOp fuel c i) st) m2 strOf2) ∧
      (TailOp.rem ∈ ops → C3Absent c i ixs (ops.foldl (applyTailOp fuel c i) st))) ∧
    (C3Absent c i ixs st → C3Absent c i ixs (ops.foldl (applyTailOp fuel c i) st)) := by
  intro ops
  induction ops with
  | nil =>
    intro st _
    exact ⟨fun m strOf hpres =>
      ⟨fun _ => ⟨m, strOf, hpres⟩, fun hmem => absurd hmem (List.not_mem_nil _)⟩,
      fun ha => ha⟩
  | cons op rest ih =>
    intro st hops
    have hopsr : ∀ p, TailOp.upd p ∈ rest → (p.map Prod.fst).Nodup ∧
        ∀ f ∈ ixs, ∀ w, jsGet p f = some w → ∃ s, w = Json.str s :=
      fun p hp => hops p (List.mem_cons_of_mem _ hp)
    constructor
    · intro m strOf hpres
      cases op with
      | upd p =>
        obtain ⟨hpnd, hp⟩ := hops p (List.mem_cons_self _ _)
        obtain ⟨m2, hpres2⟩ :=
          C3_upd_present fuel c i ixs st m strOf p hnd hinj hby hpnd hp hpres
        constructor
        · intro hnr
          have hnr2 : ¬TailOp.rem ∈ rest := fun hmem => hnr (List.mem_cons_of_mem _ hmem)
          exact ((ih _ hopsr).1 m2 _ hpres2).1 hnr2
        · intro hr
          have hr2 : TailOp.rem ∈ rest := by
            rcases List.mem_cons.mp hr with h | h
            · cases h
            · exact h
          exact ((ih _ hopsr).1 m2 _ hpres2).2 hr2
      | rem =>
        have habs := C3_rem_present c i ixs st m strOf hnd hinj hpres
        exact ⟨fun hnr => absurd (List.mem_cons_self _ _) hnr,
          fun _ => (ih _ hopsr).2 habs⟩
    · intro ha
      cases op with
      | upd p =>
        have h1 : applyTailOp fuel c i st (.upd p) = st :=
          upd_absent_state st fuel c i p ha.1
        show C3Absent c i ixs
          (rest.foldl (applyTailOp fuel c i) (applyTailOp fuel c i st (.upd p)))
        rw [h1]
        exact (ih _ hopsr).2 ha
      | rem =>
        have h1 : applyTailOp fuel c i st .rem = st := rem_absent_state st c i ha.1
        show C3Absent c i ixs
          (rest.foldl (applyTailOp fuel c i) (applyTailOp fuel c i st .rem))
        rw [h1]
        exact (ih _ hopsr).2 ha

/-- C3 (amended): a record created once by `add` with `indexBy := ixs` (a fresh
explicit id that is not the reserved `_index` field, distinct index-collection
names recovering their field names, string values at every indexed field, both
initially and in every update partial) keeps its secondary indexes consistent
under any following sequence of updates and removals: while the record is
present (no removal has occurred), `getItemInCollectionBy` with the current
value of any indexed field returns exactly the stored record (its merged value
plus `id`), and any other string value fails with `CollectionFieldInexistent`;
once a removal has occurred, every lookup on every indexed field fails with
`CollectionFieldInexistent`.  (The original claim over arbitrary sequences is
refuted by `RelationalStore.C3_double_add_stale_index`.) -/
theorem C3_index_lookup_consistency (fuel : Nat) (c i : String) (v0 : JsObj)
    (ixs : List String) (ops : List TailOp)
    (hi : ¬i = "_index")
    (hnd : ixs.Nodup)
    (hinj : ∀ a ∈ ixs, ∀ b ∈ ixs,
      toIndexedCollectionName c a = toIndexedCollectionName c b → a = b)
    (hby : ∀ f ∈ ixs, getByFieldNameFromIndexedCollection (toIndexedCollectionName c f) = some f)
    (hv0 : ∀ f ∈ ixs, ∃ s, jsGet v0 f = some (Json.str s))
    (hops : ∀ p, TailOp.upd p ∈ ops → (p.map Prod.fst).Nodup ∧
      ∀ f ∈ ixs, ∀ w, jsGet p f = some w → ∃ s, w = Json.str s) :
    (¬TailOp.rem ∈ ops →
      ∃ m strOf, C3Present c i ixs (runSeq fuel c i v0 ixs ops) m strOf ∧
        ∀ f ∈ ixs,
          (getItemInCollectionBy (runSeq fuel c i v0 ixs ops) (fuel+1) c f
              (Json.str (strOf f))).1
            = some (Except.ok (jsSet m.val "id" (Json.str i))) ∧
          ∀ v : Json, ¬jsKeyStr v = strOf f →
            (getItemInCollectionBy (runSeq fuel c i v0 ixs ops) (fuel+1) c f v).1
              = some (Except.error StoreErr.CollectionFieldInexistent)) ∧
    (TailOp.rem ∈ ops →
      C3Absent c i ixs (runSeq fuel c i v0 ixs ops) ∧
        ∀ f ∈ ixs, ∀ v : Json,
          (getItemInCollectionBy (runSeq fuel c i v0 ixs ops) (fuel+1) c f v).1
            = some (Except.error StoreErr.CollectionFieldInexistent)) := by
  obtain ⟨m0, hpres0⟩ := C3_init fuel c i v0 ixs hi hnd hinj hv0
  have haux := C3_run_aux fuel c i ixs hnd hinj hby ops
    (addItem emptyState fuel c v0 (some i) ixs [] false).1 hops
  constructor
  · intro hnr
    obtain ⟨m, strOf, hpres⟩ := (haux.1 m0 _ hpres0).1 hnr
    refine ⟨m, strOf, hpres, ?_⟩
    intro f hf
    exact C3_lookup_present _ fuel c i ixs m strOf hpres f hf
  · intro hr
    have habs := (haux.1 m0 _ hpres0).2 hr
    refine ⟨habs, ?_⟩
    intro f hf v
    exact C3_lookup_absent _ (fuel+1) c i ixs habs f hf v

/-- C3 (counterexample to the unrestricted claim): adding twice under the same
id leaves the first add's index entry in place; looking the record up by the
stale indexed value `"u1"` returns the second add's record (whose `createdBy`
is `"u2"`) — a wrong, stale hit instead of a not-found failure. -/
theorem C3_double_add_stale_index :
    (getItemInCollectionBy exDoubleAddState 1 "challenges" "createdBy"
        (.str "u1")).1
      = some (.ok [("createdBy", .str "u2"), ("id", .str "c1")]) := rfl

/-- Witness: a concrete add (`name := "ada"`, indexed by `name`) followed by an
update to `"grace"`; every hypothesis of the amended C3 theorem is discharged
at these inputs. -/
theorem C3_index_lookup_consistency_witness :
    ∃ m strOf, C3Present "users" "u1" ["name"]
        (runSeq 1 "users" "u1" [("name", Json.str "ada")] ["name"]
          [TailOp.upd [("name", Json.str "grace")]]) m strOf ∧
      ∀ f ∈ ["name"],
        (getItemInCollectionBy
            (runSeq 1 "users" "u1" [("name", Json.str "ada")] ["name"]
              [TailOp.upd [("name", Json.str "grace")]]) 2 "users" f
            (Json.str (strOf f))).1
          = some (Except.ok (jsSet m.val "id" (Json.str "u1"))) ∧
        ∀ v : Json, ¬jsKeyStr v = strOf f →
          (getItemInCollectionBy
              (runSeq 1 "users" "u1" [("name", Json.str "ada")] ["name"]
                [TailOp.upd [("name", Json.str "grace")]]) 2 "users" f v).1
            = some (Except.error StoreErr.CollectionFieldInexistent) := by
  have h := (C3_index_lookup_consistency 1 "users" "u1" [("name", Json.str "ada")]
    ["name"] [TailOp.upd [("name", Json.str "grace")]]
    (by decide) (by decide) (by decide) (by decide)
    (fun f hf => ⟨"ada", by rw [List.mem_singleton.mp hf]; rfl⟩)
    (fun p hp => by
      have hpq : TailOp.upd p = TailOp.upd [("name", Json.str "grace")] :=
        List.mem_singleton.mp hp
      have hpe : p = [("name", Json.str "grace")] := by
        injection hpq
      subst hpe
      refine ⟨by decide, ?_⟩
      intro f hf w hw
      rw [List.mem_singleton.mp hf] at hw
      have h0 : jsGet [("name", Json.str "grace")] "name"
          = some (Json.str "grace") := rfl
      rw [h0] at hw
      exact ⟨"grace", (Option.some_inj.mp hw).symm⟩)).1
    (by intro hmem; exact TailOp.noConfusion (List.mem_singleton.mp hmem))
  exact h

end RelationalStore
